import Mathlib

/-!
LCDTerm: a terminal emulator over a character matrix

A shallow embedding of `lcdterm.cpp` / `lcdterm.h` (class `LCDTerm`) together
with the part of `charactermatrix.h` it talks to.

* `uint8_t` members (`current_row`, `current_col`, `rows`, `cols`,
  `tab_space`) and `Char` values are natural numbers; increments of a
  `uint8_t` are reduced `% 256` explicitly.
* `int` expressions (`rows - 1`, buffer indices) are computed exactly, as on a
  target whose `int` holds `rows * cols` (every panel of fewer than 32768
  cells when `int` has 16 bits).
* The `CharacterMatrix &cm` member is pure virtual in the source.  It is
  embedded as the ordered log of the calls made on it, so that "which call was
  issued" is a statement about the state.
* `curr_buff` is the heap block that `init` allocates, as a list of bytes.
  Accesses outside the block are undefined behaviour in the source; the list
  operations ignore such writes and read such cells as 0.  The theorems are
  stated for well-formed states (`WF`), in which every access is inside the
  block.
-/

/-- One call on the `CharacterMatrix` interface (`charactermatrix.h`). -/
inductive CmCall where
  | init
  | clear
  | set_cursor (row col : Nat)
  | write_char_at (row col c : Nat)
  | backlight_on
  | backlight_off
  | cursor_on
  | cursor_off
  | bell
  deriving DecidableEq, Repr

/-- The members of class `LCDTerm` (`lcdterm.h`, lines 119-130).  `cm` is the
log of the calls made so far on the `CharacterMatrix` reference. -/
structure LCDTerm where
  cm : List CmCall
  current_row : Nat
  current_col : Nat
  rows : Nat
  cols : Nat
  curr_buff : List Nat
  col_stride : Nat
  lf_is_crlf : Bool
  swap_bs_del : Bool
  tab_space : Nat
  deriving DecidableEq, Repr

/-- The constant `LCDTERM_LF_IS_CRLF` of `lcdterm.h`. -/
def LCDTERM_LF_IS_CRLF : Nat := 0x01

/-- The constant `LCDTERM_SWAP_BS_DEL` of `lcdterm.h`. -/
def LCDTERM_SWAP_BS_DEL : Nat := 0x02

/-- The C operator `&&` on two integers: true when both are non-zero. -/
def logical_and (a b : Nat) : Bool := (a != 0) && (b != 0)

/-- The C call `memmove (buf + dst, buf + src, n)` on a block held as a list. -/
def memmove (buf : List Nat) (dst src n : Nat) : List Nat :=
  buf.take dst ++ ((buf.drop src).take n ++ buf.drop (dst + n))

/-- The C call `memset (buf + dst, v, n)` on a block held as a list. -/
def memset (buf : List Nat) (dst v n : Nat) : List Nat :=
  buf.take dst ++ (List.replicate n v ++ buf.drop (dst + n))

/-- The C call `malloc (n)`: a block of `n` bytes whose contents are whatever
`junk` happens to hold (allocation failure is not modelled). -/
def malloc (junk : Nat → Nat) (n : Nat) : List Nat :=
  (List.range n).map junk

/-- The value of `sizeof (Char)`, `Char` being `uint8_t`. -/
def sizeof_Char : Nat := 1

namespace LCDTerm

/-- Issue one call on the character matrix: append it to the log. -/
def call (s : LCDTerm) (k : CmCall) : LCDTerm :=
  { s with cm := s.cm ++ [k] }

/-- Constructor `LCDTerm::LCDTerm (cm, flags)` (lines 11-25).  `cm_rows` and
`cm_cols` are what `cm.get_rows()` and `cm.get_cols()` return.  The buffer
pointer and `col_stride` are not set before `init`; they are given as the
empty block and 0. -/
def ctor (cm_rows cm_cols flags : Nat) : LCDTerm :=
  let s : LCDTerm :=
    { cm := [], current_row := 0, current_col := 0, rows := cm_rows,
      cols := cm_cols, curr_buff := [], col_stride := 0,
      lf_is_crlf := false, swap_bs_del := false, tab_space := 5 }
  let s := if logical_and flags LCDTERM_LF_IS_CRLF then
      { s with lf_is_crlf := true } else s
  if logical_and flags LCDTERM_SWAP_BS_DEL then
    { s with swap_bs_del := true } else s

/-- Method `LCDTerm::clear_buff` (lines 265-268). -/
def clear_buff (s : LCDTerm) : LCDTerm :=
  { s with curr_buff := memset s.curr_buff 0 0 (s.rows * s.col_stride) }

/-- Method `LCDTerm::home` (lines 43-48). -/
def home (s : LCDTerm) : LCDTerm :=
  let s := s.call (.set_cursor 0 0)
  { s with current_row := 0, current_col := 0 }

/-- Method `LCDTerm::init` (lines 30-38). -/
def init (junk : Nat → Nat) (s : LCDTerm) : LCDTerm :=
  let s := { s with col_stride := s.cols * sizeof_Char }
  let s := { s with curr_buff := malloc junk (s.rows * s.col_stride) }
  let s := clear_buff s
  let s := s.call .init
  let s := s.call .clear
  home s

/-- Method `LCDTerm::set_cursor` (lines 51-59). -/
def set_cursor (s : LCDTerm) (row col : Nat) : LCDTerm :=
  if row < s.rows ∧ col < s.cols then
    let s := s.call (.set_cursor row col)
    { s with current_row := row, current_col := col }
  else s

/-- Method `LCDTerm::print_bell` (lines 307-310). -/
def print_bell (s : LCDTerm) : LCDTerm :=
  s.call .bell

/-- Method `LCDTerm::print_cr` (lines 161-165). -/
def print_cr (s : LCDTerm) : LCDTerm :=
  let s := { s with current_col := 0 }
  s.call (.set_cursor s.current_row s.current_col)

/-- Method `LCDTerm::print_form_feed` (lines 150-156). -/
def print_form_feed (s : LCDTerm) : LCDTerm :=
  let s := s.call .clear
  let s := clear_buff s
  { s with current_row := 0, current_col := 0 }

/-- The inner loop body of `buff_to_display` (line 244). -/
def paint_cell (row : Nat) (s : LCDTerm) (col : Nat) : LCDTerm :=
  s.call (.write_char_at row col (s.curr_buff.getD (row * s.col_stride + col) 0))

/-- Method `LCDTerm::buff_to_display` (lines 237-247): clear the matrix, then
write every cell, row by row. -/
def buff_to_display (s : LCDTerm) : LCDTerm :=
  let s := s.call .clear
  (List.range s.rows).foldl
    (fun s row => (List.range s.cols).foldl (paint_cell row) s) s

/-- Method `LCDTerm::scroll_up` (lines 252-260). -/
def scroll_up (s : LCDTerm) : LCDTerm :=
  let s := { s with curr_buff :=
    (memmove s.curr_buff 0 s.col_stride ((s.rows - 1) * s.col_stride)) }
  let s := { s with curr_buff :=
    (memset s.curr_buff ((s.rows - 1) * s.col_stride) 0 s.col_stride) }
  let s := buff_to_display s
  s.call (.set_cursor s.current_row s.current_col)

/-- Method `LCDTerm::print_line_feed` (lines 137-145). -/
def print_line_feed (s : LCDTerm) : LCDTerm :=
  let s := if s.lf_is_crlf then print_cr s else s
  let s := if (s.current_row : Int) < (s.rows : Int) - 1 then
      { s with current_row := (s.current_row + 1) % 256 }
    else scroll_up s
  s.call (.set_cursor s.current_row s.current_col)

/-- Method `LCDTerm::print_normal_char` (lines 170-191). -/
def print_normal_char (s : LCDTerm) (c : Nat) : LCDTerm :=
  if s.current_row < s.rows then
    let s := { s with curr_buff :=
      (s.curr_buff.set (s.current_row * s.cols + s.current_col) c) }
    let s := s.call (.write_char_at s.current_row s.current_col c)
    let s := { s with current_col := (s.current_col + 1) % 256 }
    if s.current_col ≥ s.cols then
      let s := if (s.current_row : Int) ≥ (s.rows : Int) - 1 then
          scroll_up s
        else { s with current_row := (s.current_row + 1) % 256 }
      let s := { s with current_col := 0 }
      s.call (.set_cursor s.current_row s.current_col)
    else s
  else s

/-- The call `print (' ')` made by `print_tab` and `print_del`: byte 32 goes
through `print (Char)` and the `default` arm of the switch in
`print_nonescape_char`, that is, to `print_normal_char` (see
`print_space_eq`). -/
def print_space (s : LCDTerm) : LCDTerm :=
  print_normal_char s 32

/-- Method `LCDTerm::print_bs` (lines 285-292). -/
def print_bs (s : LCDTerm) : LCDTerm :=
  if s.current_col > 0 then
    let s := { s with current_col := s.current_col - 1 }
    s.call (.set_cursor s.current_row s.current_col)
  else s

/-- Method `LCDTerm::print_del` (lines 297-302). -/
def print_del (s : LCDTerm) : LCDTerm :=
  print_bs (print_space (print_bs s))

/-- The `do ... while` loop of `print_tab` (lines 275-278), run for at most
`fuel` passes; `none` when the loop has not been left by then. -/
def print_tab_loop : Nat → LCDTerm → Option LCDTerm
  | 0, _ => none
  | fuel + 1, s =>
    let s := print_space s
    if s.current_col % s.tab_space ≠ 0 then print_tab_loop fuel s else some s

/-- Method `LCDTerm::print_tab` (lines 273-279).  A pass of the loop either
leaves the state as it is (the row is off the screen) or changes the
`uint8_t` column, so a run that is still in the loop after 256 passes never
leaves it; `none` stands for that. -/
def print_tab (s : LCDTerm) : Option LCDTerm :=
  print_tab_loop 256 s

/-- Method `LCDTerm::print_nonescape_char` (lines 73-120).  Case 0 has no
`break`, so it runs into case 7. -/
def print_nonescape_char (s : LCDTerm) (c : Nat) : Option LCDTerm :=
  if c = 0 ∨ c = 7 then some (print_bell s)
  else if c = 8 then
    some (if s.swap_bs_del then print_del s else print_bs s)
  else if c = 9 then print_tab s
  else if c = 10 then some (print_line_feed s)
  else if c = 12 then some (print_form_feed s)
  else if c = 13 then some (print_cr s)
  else if c = 17 then some (s.call .backlight_off)
  else if c = 18 then some (s.call .backlight_on)
  else if c = 19 then some (s.call .cursor_off)
  else if c = 20 then some (s.call .cursor_on)
  else if c = 127 then
    some (if s.swap_bs_del then print_bs s else print_del s)
  else some (print_normal_char s c)

/-- Method `LCDTerm::print (Char c)` (lines 65-68). -/
def print (s : LCDTerm) (c : Nat) : Option LCDTerm :=
  print_nonescape_char s c

/-- Method `LCDTerm::print (const Char *s)` (lines 125-132).  The argument is
the memory the pointer refers to; the loop stops at the first zero byte.  A
list without a zero byte stops at its end. -/
def print_str : LCDTerm → List Nat → Option LCDTerm
  | s, [] => some s
  | s, c :: rest =>
    if c ≠ 0 then (print s c).bind (fun s => print_str s rest) else some s

/-- Method `LCDTerm::clear` (lines 229-234). -/
def clear (s : LCDTerm) : LCDTerm :=
  let s := s.call .clear
  let s := clear_buff s
  home s

/-- A state as the constructor and `init` leave it and every method keeps it:
the geometry fits `uint8_t`, `col_stride` is the row length, the block has
`rows * cols` bytes and the tab distance is not zero (the constructor sets 5). -/
def WF (s : LCDTerm) : Prop :=
  s.rows < 256 ∧ s.cols < 256 ∧ s.col_stride = s.cols ∧
    s.curr_buff.length = s.rows * s.cols ∧ 0 < s.tab_space

instance (s : LCDTerm) : Decidable (WF s) := by
  unfold WF; infer_instance

/-- The cursor is on the screen. -/
def InBounds (s : LCDTerm) : Prop :=
  s.current_row < s.rows ∧ s.current_col < s.cols

instance (s : LCDTerm) : Decidable (InBounds s) := by
  unfold InBounds; infer_instance

/-- Buffer row `r`: the `cols` bytes from index `r * cols`. -/
def row (s : LCDTerm) (r : Nat) : List Nat :=
  (s.curr_buff.drop (r * s.cols)).take s.cols

/-- Buffer cell `(r, c)`, as the source indexes it: `curr_buff [r * cols + c]`. -/
def cell (s : LCDTerm) (r c : Nat) : Nat :=
  s.curr_buff.getD (r * s.cols + c) 0

/-- The bytes that have an arm of their own in the switch of
`print_nonescape_char`. -/
def control_codes : List Nat := [0, 7, 8, 9, 10, 12, 13, 17, 18, 19, 20, 127]

/-- Feed bytes one at a time through `print (Char)`, in order, as `loop` of
`usb_lcd.cpp` does with the bytes it reads. -/
def feed : LCDTerm → List Nat → Option LCDTerm
  | s, [] => some s
  | s, c :: rest => (print s c).bind (fun s => feed s rest)

/-- One call of a public method that changes the terminal. -/
inductive Op where
  | print (c : Nat)
  | print_str (mem : List Nat)
  | set_cursor (row col : Nat)
  | home
  | clear
  | scroll_up
  deriving DecidableEq, Repr

/-- Run one public method. -/
def step (s : LCDTerm) : Op → Option LCDTerm
  | .print c => print s c
  | .print_str mem => print_str s mem
  | .set_cursor r c => some (set_cursor s r c)
  | .home => some (home s)
  | .clear => some (clear s)
  | .scroll_up => some (scroll_up s)

/-- Run a sequence of public methods, in order. -/
def run : LCDTerm → List Op → Option LCDTerm
  | s, [] => some s
  | s, op :: rest => (step s op).bind (fun s => run s rest)

end LCDTerm

/-- What the driver shows for a character code: `LCD8574Arduino::write_char_at`
starts with `if (c == 0) c = 32` (lcd8574arduino.cpp, line 318). -/
def render (c : Nat) : Nat := if c = 0 then 32 else c

/-- The effect of one `CharacterMatrix` call on the characters shown by a
`rows` x `cols` panel, held row-major: `clear` blanks every cell,
`write_char_at` sets its cell when the cell is on the panel (the guard of
`LCD8574Arduino::write_char_at`, line 319), and no other call changes a
character. -/
def display_step (rows cols : Nat) (d : List Nat) : CmCall → List Nat
  | .clear => List.replicate (rows * cols) 32
  | .write_char_at r c ch =>
    if r < rows ∧ c < cols then d.set (r * cols + c) (render ch) else d
  | _ => d

/-- The characters on the panel after a log of calls, from the contents `d0`. -/
def display (rows cols : Nat) (d0 : List Nat) (calls : List CmCall) : List Nat :=
  calls.foldl (display_step rows cols) d0

namespace LCDTerm

/-- The `write_char_at` calls of the repaint of `buff_to_display`, in order. -/
def repaint_calls (s : LCDTerm) : List CmCall :=
  (List.range s.rows).flatMap (fun row => (List.range s.cols).map (fun col =>
    CmCall.write_char_at row col (s.curr_buff.getD (row * s.col_stride + col) 0)))

end LCDTerm

/-- Cells `0 .. k-1` of the panel `d` show the buffer `buf`. -/
def painted (buf d : List Nat) (n k : Nat) : Prop :=
  d.length = n ∧ ∀ i, i < k → d[i]? = some (render (buf.getD i 0))

namespace LCDTerm

/-- The buffer that `scroll_up` leaves: the rows after the first, then a row
of zeros. -/
def scrolled (s : LCDTerm) : List Nat :=
  s.curr_buff.drop s.cols ++ List.replicate s.cols 0

/-- The state after line 174 of `print_normal_char`: the character is in the
buffer at the cursor. -/
def stored (s : LCDTerm) (c : Nat) : LCDTerm :=
  { s with curr_buff := s.curr_buff.set (s.current_row * s.cols + s.current_col) c }

/-- A 2 x 3 terminal with the cursor in its last cell and `ABCDEF` in its
buffer. -/
def sample : LCDTerm :=
  { cm := [], current_row := 1, current_col := 2, rows := 2, cols := 3,
    curr_buff := [65, 66, 67, 68, 69, 70], col_stride := 3,
    lf_is_crlf := false, swap_bs_del := false, tab_space := 5 }

/-- The column after the carriage return that `print_line_feed` may do. -/
def lf_col (s : LCDTerm) : Nat :=
  if s.lf_is_crlf then 0 else s.current_col

/-- The calls of the carriage return that `print_line_feed` may do. -/
def lf_calls (s : LCDTerm) : List CmCall :=
  if s.lf_is_crlf then [CmCall.set_cursor s.current_row 0] else []

end LCDTerm

/-- The block `buf` with the bytes `bs` copied over it from index `k`. -/
def overwrite (buf : List Nat) (k : Nat) (bs : List Nat) : List Nat :=
  buf.take k ++ (bs ++ buf.drop (k + bs.length))

namespace LCDTerm

/-- The panel, replayed from the contents `d0` over the calls made so far,
shows the buffer, 0 as a space. -/
def Mirror (d0 : List Nat) (s : LCDTerm) : Prop :=
  display s.rows s.cols d0 s.cm = s.curr_buff.map render

/-- What a method keeps: from a well-formed state `s` with the cursor on the
screen to such a state `t` of the same geometry, and from a mirrored panel to
a mirrored panel. -/
def Step (d0 : List Nat) (s t : LCDTerm) : Prop :=
  WF t ∧ InBounds t ∧ t.rows = s.rows ∧ t.cols = s.cols ∧ (Mirror d0 s → Mirror d0 t)

end LCDTerm

namespace LCDTerm

/-- The state `s` with the member `swap_bs_del` set to `b`. -/
def with_swap (s : LCDTerm) (b : Bool) : LCDTerm :=
  { s with swap_bs_del := b }

end LCDTerm

namespace LCDTerm

/-- A 1 x 12 terminal full of `A` with the cursor at column `c`. -/
def sample_line (c : Nat) : LCDTerm :=
  { cm := [], current_row := 0, current_col := c, rows := 1, cols := 12,
    curr_buff := List.replicate 12 65, col_stride := 12,
    lf_is_crlf := false, swap_bs_del := false, tab_space := 5 }

end LCDTerm

/-! ## The driver `LCD8574Arduino`

The part of `lcd8574arduino.cpp` that constructs and initializes the driver,
places the cursor and writes a character.  The I2C channel
(the `Wire` library) is embedded as the ordered log of the bytes handed to
`Wire.write`, each with the address of its transmission.  Delays are not
part of the model.
-/

/-- The members of class `LCD8574Arduino` (`lcd8574arduino.h`, lines 125-135).
`wire` is the log of the bytes sent so far, as pairs (I2C address, byte). -/
structure LCD8574Arduino where
  wire : List (Nat × Nat)
  charsize : Nat
  i2c_addr : Nat
  hardware_mode : Nat
  display_mode : Nat
  text_handling_mode : Nat
  cols : Nat
  rows : Nat
  backlight_flag : Nat
  deriving DecidableEq, Repr

/-- The constant `LCD_CMDDATA_FLAG` of `lcd8574arduino.cpp`. -/
def LCD_CMDDATA_FLAG : Nat := 1

/-- The constant `LCD_ENABLE_FLAG` of `lcd8574arduino.cpp` (`B00000100`). -/
def LCD_ENABLE_FLAG : Nat := 0x04

/-- The constant `LCD_SETDDRAMADDR` of `lcd8574arduino.cpp`. -/
def LCD_SETDDRAMADDR : Nat := 0x80

/-- The table `row_offsets` of `LCD8574Arduino::set_cursor` (line 178). -/
def row_offsets : List Nat := [0x00, 0x40, 0x14, 0x54]

namespace LCD8574Arduino

/-- Method `LCD8574Arduino::write_i2c_byte` (lines 389-394): one transmission
to `i2c_addr` of the byte `data | backlight_flag`. -/
def write_i2c_byte (d : LCD8574Arduino) (data : Nat) : LCD8574Arduino :=
  { d with wire := d.wire ++ [(d.i2c_addr, (data ||| d.backlight_flag) % 256)] }

/-- Method `LCD8574Arduino::do_clock` (lines 404-411).  `data` is a byte, so
of `~LCD_ENABLE_FLAG` only the low eight bits matter. -/
def do_clock (d : LCD8574Arduino) (data : Nat) : LCD8574Arduino :=
  let d := write_i2c_byte d ((data ||| LCD_ENABLE_FLAG) % 256)
  write_i2c_byte d ((data &&& (0xFF ^^^ LCD_ENABLE_FLAG)) % 256)

/-- Method `LCD8574Arduino::write4bits` (lines 377-381). -/
def write4bits (d : LCD8574Arduino) (value : Nat) : LCD8574Arduino :=
  let d := write_i2c_byte d value
  do_clock d value

/-- Method `LCD8574Arduino::send_byte` (lines 358-369). -/
def send_byte (d : LCD8574Arduino) (value data_mode : Nat) : LCD8574Arduino :=
  let high := (value &&& 0xf0) % 256
  let low := ((value <<< 4) &&& 0xf0) % 256
  let flag := if data_mode ≠ 0 then LCD_CMDDATA_FLAG else 0
  let d := write4bits d ((high ||| flag) % 256)
  write4bits d ((low ||| flag) % 256)

/-- Method `LCD8574Arduino::command` (lines 348-351). -/
def command (d : LCD8574Arduino) (value : Nat) : LCD8574Arduino :=
  send_byte d value 0

/-- Method `LCD8574Arduino::set_cursor` (lines 176-183).  The argument of
`command` is a `uint8_t`, hence `% 256`; a row outside the table, which the
source would read past its end, reads as 0. -/
def set_cursor (d : LCD8574Arduino) (row col : Nat) : LCD8574Arduino :=
  if row < d.rows then
    command d ((LCD_SETDDRAMADDR ||| (col + row_offsets.getD row 0)) % 256)
  else d

/-- Method `LCD8574Arduino::write_char_at` (lines 316-324). -/
def write_char_at (d : LCD8574Arduino) (row col c : Nat) : LCD8574Arduino :=
  let c := if c = 0 then 32 else c
  if row < d.rows ∧ col < d.cols then
    let d := set_cursor d row col
    send_byte d c 1
  else d

/-- The 4 x 20 panel of `usb_lcd.cpp` at address 0x27, backlight on, nothing
sent yet. -/
def sample_lcd : LCD8574Arduino :=
  { wire := [], charsize := 0, i2c_addr := 0x27, hardware_mode := 0x08,
    display_mode := 0x04, text_handling_mode := 0x02, cols := 20, rows := 4,
    backlight_flag := 0x08 }

end LCD8574Arduino

/-- The constant `LCD_5x10DOTS` of `lcd8574arduino.h`. -/
def LCD_5x10DOTS : Nat := 0x04

/-- The constant `LCD_5x8DOTS` of `lcd8574arduino.h`. -/
def LCD_5x8DOTS : Nat := 0x00

/-- The constant `LCD_BACKLIGHT_FLAG` of `lcd8574arduino.cpp` (`B1000`). -/
def LCD_BACKLIGHT_FLAG : Nat := 0x08

/-- The constant `LCD_ENTRYMODESET` of `lcd8574arduino.cpp`. -/
def LCD_ENTRYMODESET : Nat := 0x04

/-- The constant `LCD_DISPLAYCONTROL` of `lcd8574arduino.cpp`. -/
def LCD_DISPLAYCONTROL : Nat := 0x08

/-- The constant `LCD_FUNCTIONSET` of `lcd8574arduino.cpp`. -/
def LCD_FUNCTIONSET : Nat := 0x20

/-- The constant `LCD_ENTRYLEFT` of `lcd8574arduino.cpp`. -/
def LCD_ENTRYLEFT : Nat := 0x02

/-- The constant `LCD_ENTRYSHIFTDECREMENT` of `lcd8574arduino.cpp`. -/
def LCD_ENTRYSHIFTDECREMENT : Nat := 0x00

/-- The constant `LCD_DISPLAYON` of `lcd8574arduino.cpp`. -/
def LCD_DISPLAYON : Nat := 0x04

/-- The constant `LCD_CURSOROFF` of `lcd8574arduino.cpp`. -/
def LCD_CURSOROFF : Nat := 0x00

/-- The constant `LCD_BLINKOFF` of `lcd8574arduino.cpp`. -/
def LCD_BLINKOFF : Nat := 0x00

/-- The constant `LCD_4BITMODE` of `lcd8574arduino.cpp`. -/
def LCD_4BITMODE : Nat := 0x00

/-- The constant `LCD_2LINE` of `lcd8574arduino.cpp`. -/
def LCD_2LINE : Nat := 0x08

/-- The constant `LCD_1LINE` of `lcd8574arduino.cpp`. -/
def LCD_1LINE : Nat := 0x00

/-- The DDRAM address that `LCD8574Arduino::set_cursor` computes for a cell
(line 181): `col + row_offsets [row]`. -/
def ddram_address (row col : Nat) : Nat :=
  col + row_offsets.getD row 0

namespace LCD8574Arduino

/-- Constructor `LCD8574Arduino::LCD8574Arduino` (lines 88-97).  `mem` is the
storage of the object before the constructor runs; no member has an
initializer, so a member the body does not assign keeps what `mem` holds.
Line 94, `charsize = charsize;`, names the parameter on both sides (the
parameter hides the member): it is the local `_charsize` here, and nothing is
assigned to the member. -/
def ctor (mem : LCD8574Arduino) (lcdi2c_addr _cols _rows charsize : Nat) :
    LCD8574Arduino :=
  let d := { mem with i2c_addr := lcdi2c_addr }
  let d := { d with cols := _cols }
  let d := { d with rows := _rows }
  let _charsize := charsize
  { d with backlight_flag := LCD_BACKLIGHT_FLAG }

/-- Method `LCD8574Arduino::display_on` (lines 197-201). -/
def display_on (d : LCD8574Arduino) : LCD8574Arduino :=
  let d := { d with display_mode := (d.display_mode ||| LCD_DISPLAYON) % 256 }
  command d ((LCD_DISPLAYCONTROL ||| d.display_mode) % 256)

/-- Method `LCD8574Arduino::init` (lines 102-160), without `Wire.begin` and
the delays. -/
def init (d : LCD8574Arduino) : LCD8574Arduino :=
  let d := { d with hardware_mode := (LCD_4BITMODE ||| LCD_1LINE ||| LCD_5x8DOTS) % 256 }
  let d := if d.rows > 1 then
      { d with hardware_mode := (d.hardware_mode ||| LCD_2LINE) % 256 }
    else d
  let d := if d.charsize ≠ 0 ∧ d.rows = 1 then
      { d with hardware_mode := (d.hardware_mode ||| LCD_5x10DOTS) % 256 }
    else d
  let d := write_i2c_byte d d.backlight_flag
  let d := write4bits d ((0x03 <<< 4) % 256)
  let d := write4bits d ((0x03 <<< 4) % 256)
  let d := write4bits d ((0x03 <<< 4) % 256)
  let d := write4bits d ((0x02 <<< 4) % 256)
  let d := command d ((LCD_FUNCTIONSET ||| d.hardware_mode) % 256)
  let d := { d with display_mode := (LCD_DISPLAYON ||| LCD_CURSOROFF ||| LCD_BLINKOFF) % 256 }
  let d := display_on d
  let d := { d with
    text_handling_mode := (LCD_ENTRYLEFT ||| LCD_ENTRYSHIFTDECREMENT) % 256 }
  command d ((LCD_ENTRYMODESET ||| d.text_handling_mode) % 256)

/-- The storage of an object with static storage duration before its
constructor runs, as that of `lcd` in `usb_lcd.cpp`: every member is zero. -/
def static_storage : LCD8574Arduino :=
  { wire := [], charsize := 0, i2c_addr := 0, hardware_mode := 0,
    display_mode := 0, text_handling_mode := 0, cols := 0, rows := 0,
    backlight_flag := 0 }

end LCD8574Arduino

/-! ## Blocks of memory -/

theorem memset_whole (buf : List Nat) (v n : Nat) (h : buf.length = n) :
    memset buf 0 v n = List.replicate n v := by
  simp [memset, ← h]

theorem memmove_up (buf : List Nat) (k n : Nat) (h : buf.length = n + k) :
    memmove buf 0 k n = buf.drop k ++ buf.drop n := by
  have h1 : (buf.drop k).length ≤ n := by simp [h]
  simp [memmove, List.take_of_length_le h1]

theorem memset_tail (a b : List Nat) (v k : Nat) (h : b.length = k) :
    memset (a ++ b) a.length v k = a ++ List.replicate k v := by
  simp [memset, ← h]

/-- The buffer after the `memmove` and `memset` of `scroll_up`, for a block of
`(n + 1)` rows of `k` bytes. -/
theorem scroll_block (buf : List Nat) (k n : Nat) (h : buf.length = n * k + k) :
    memset (memmove buf 0 k (n * k)) (n * k) 0 k
      = buf.drop k ++ List.replicate k 0 := by
  rw [memmove_up buf k (n * k) h]
  have h1 : (buf.drop k).length = n * k := by simp [h]
  have h2 : (buf.drop (n * k)).length = k := by simp [h]
  have := memset_tail (buf.drop k) (buf.drop (n * k)) 0 k h2
  rw [h1] at this
  exact this

theorem index_inj {k r c r' c' : Nat} (hc : c < k) (hc' : c' < k)
    (h : r * k + c = r' * k + c') : r = r' ∧ c = c' := by
  have hk : 0 < k := by omega
  have e1 : (c + r * k) / k = r := by
    rw [Nat.add_mul_div_right _ _ hk, Nat.div_eq_of_lt hc]; simp
  have e2 : (c' + r' * k) / k = r' := by
    rw [Nat.add_mul_div_right _ _ hk, Nat.div_eq_of_lt hc']; simp
  have e : c + r * k = c' + r' * k := by omega
  rw [e] at e1
  have hr : r = r' := by rw [← e1, e2]
  subst hr
  exact ⟨rfl, by omega⟩

theorem index_lt {k n r c : Nat} (hr : r < n) (hc : c < k) : r * k + c < n * k := by
  have : (r + 1) * k ≤ n * k := Nat.mul_le_mul_right k hr
  rw [Nat.succ_mul] at this
  omega

namespace LCDTerm

/-! ## The repaint and the scroll -/

theorem paint_row_eq (row : Nat) (l : List Nat) (s : LCDTerm) :
    l.foldl (paint_cell row) s = { s with cm := s.cm ++ l.map (fun col =>
      CmCall.write_char_at row col (s.curr_buff.getD (row * s.col_stride + col) 0)) } := by
  induction l generalizing s with
  | nil => simp
  | cons a l ih => rw [List.foldl_cons, ih]; simp [paint_cell, call]

theorem paint_rows_eq (l : List Nat) (s : LCDTerm) :
    l.foldl (fun s row => (List.range s.cols).foldl (paint_cell row) s) s
      = { s with cm := s.cm ++ l.flatMap (fun row => (List.range s.cols).map (fun col =>
          CmCall.write_char_at row col (s.curr_buff.getD (row * s.col_stride + col) 0))) } := by
  induction l generalizing s with
  | nil => simp
  | cons a l ih => rw [List.foldl_cons, ih, paint_row_eq]; simp

theorem buff_to_display_eq (s : LCDTerm) :
    buff_to_display s = { s with cm := s.cm ++ CmCall.clear :: repaint_calls s } := by
  simp [buff_to_display, paint_rows_eq, call, repaint_calls]

end LCDTerm

/-! ## The panel -/

theorem painted_step (rows cols : Nat) (buf d : List Nat) (R C : Nat)
    (hR : R < rows) (hC : C < cols)
    (hd : painted buf d (rows * cols) (R * cols + C)) :
    painted buf (display_step rows cols d
      (CmCall.write_char_at R C (buf.getD (R * cols + C) 0)))
      (rows * cols) (R * cols + C + 1) := by
  obtain ⟨hl, hp⟩ := hd
  have hlt : R * cols + C < rows * cols := index_lt hR hC
  simp only [display_step, hR, hC, and_self, if_true]
  refine ⟨by rw [List.length_set]; exact hl, ?_⟩
  intro i hi
  rw [List.getElem?_set]
  by_cases hik : R * cols + C = i
  · subst hik
    rw [if_pos rfl, if_pos (by omega)]
  · rw [if_neg hik]
    exact hp i (by omega)

theorem painted_row (rows cols : Nat) (buf : List Nat) (R : Nat) (hR : R < rows)
    (C : Nat) (hC : C ≤ cols) (d : List Nat)
    (hd : painted buf d (rows * cols) (R * cols)) :
    painted buf (List.foldl (display_step rows cols) d
      ((List.range C).map (fun col =>
        CmCall.write_char_at R col (buf.getD (R * cols + col) 0))))
      (rows * cols) (R * cols + C) := by
  induction C with
  | zero => exact hd
  | succ C ih =>
    have ih := ih (by omega)
    rw [List.range_succ, List.map_append, List.foldl_append]
    exact painted_step rows cols buf _ R C hR (by omega) ih

theorem painted_rows (rows cols : Nat) (buf : List Nat) (R : Nat) (hR : R ≤ rows)
    (d : List Nat) (hd : d.length = rows * cols) :
    painted buf (List.foldl (display_step rows cols) d
      ((List.range R).flatMap (fun row => (List.range cols).map (fun col =>
        CmCall.write_char_at row col (buf.getD (row * cols + col) 0)))))
      (rows * cols) (R * cols) := by
  induction R with
  | zero => exact ⟨by simpa using hd, by intro i hi; simp at hi⟩
  | succ R ih =>
    have ih := ih (by omega)
    rw [List.range_succ, List.flatMap_append, List.foldl_append]
    have := painted_row rows cols buf R (by omega) cols (le_refl _) _ ih
    simpa [Nat.succ_mul] using this

/-- A cleared panel repainted from a buffer of `rows * cols` bytes shows every
byte of the buffer, 0 as a space. -/
theorem display_repaint (rows cols : Nat) (buf : List Nat)
    (hlen : buf.length = rows * cols) (d : List Nat) (hd : d.length = rows * cols) :
    List.foldl (display_step rows cols) d
      ((List.range rows).flatMap (fun row => (List.range cols).map (fun col =>
        CmCall.write_char_at row col (buf.getD (row * cols + col) 0))))
      = buf.map render := by
  obtain ⟨hl, hp⟩ := painted_rows rows cols buf rows (le_refl _) d hd
  apply List.ext_getElem?
  intro i
  by_cases hi : i < rows * cols
  · rw [hp i hi, List.getElem?_map, List.getD_eq_getElem?_getD]
    have : i < buf.length := by omega
    simp [List.getElem?_eq_getElem this]
  · rw [List.getElem?_eq_none (by omega), List.getElem?_eq_none (by simp; omega)]

namespace LCDTerm

theorem scroll_up_eq (s : LCDTerm) (h : WF s) (hr : 1 ≤ s.rows) :
    scroll_up s = { s with
      curr_buff := scrolled s,
      cm := s.cm ++ CmCall.clear :: repaint_calls { s with curr_buff := scrolled s }
        ++ [CmCall.set_cursor s.current_row s.current_col] } := by
  obtain ⟨_, _, hst, hlen, _⟩ := h
  have hl : s.curr_buff.length = (s.rows - 1) * s.cols + s.cols := by
    rw [hlen]
    obtain ⟨n, hn⟩ : ∃ n, s.rows = n + 1 := ⟨s.rows - 1, by omega⟩
    rw [hn, Nat.succ_mul]; simp
  simp only [scroll_up, buff_to_display_eq, call, hst, scroll_block _ _ _ hl, scrolled]

theorem scrolled_length (s : LCDTerm) (h : WF s) (hr : 1 ≤ s.rows) :
    (scrolled s).length = s.rows * s.cols := by
  obtain ⟨_, _, _, hlen, _⟩ := h
  obtain ⟨n, hn⟩ : ∃ n, s.rows = n + 1 := ⟨s.rows - 1, by omega⟩
  simp [scrolled, hlen, hn, Nat.succ_mul]

theorem scrolled_row (s : LCDTerm) (h : WF s) (i : Nat) (hi : i + 1 < s.rows) :
    ((scrolled s).drop (i * s.cols)).take s.cols
      = (s.curr_buff.drop ((i + 1) * s.cols)).take s.cols := by
  obtain ⟨_, _, _, hlen, _⟩ := h
  have h1 : (i + 2) * s.cols ≤ s.rows * s.cols := Nat.mul_le_mul_right _ hi
  have e2 : (i + 2) * s.cols = i * s.cols + s.cols + s.cols := by ring
  have e1 : (i + 1) * s.cols = i * s.cols + s.cols := by ring
  have hle : i * s.cols ≤ (s.curr_buff.drop s.cols).length := by
    simp [hlen]; omega
  have hle2 : s.cols ≤ ((s.curr_buff.drop s.cols).drop (i * s.cols)).length := by
    simp [hlen]; omega
  rw [scrolled, List.drop_append_of_le_length hle, List.take_append_of_le_length hle2,
    List.drop_drop, e1]
  congr 2
  omega

theorem scrolled_last (s : LCDTerm) (h : WF s) (hr : 1 ≤ s.rows) :
    ((scrolled s).drop ((s.rows - 1) * s.cols)).take s.cols
      = List.replicate s.cols 0 := by
  obtain ⟨_, _, _, hlen, _⟩ := h
  obtain ⟨n, hn⟩ : ∃ n, s.rows = n + 1 := ⟨s.rows - 1, by omega⟩
  have hl : (s.curr_buff.drop s.cols).length = (s.rows - 1) * s.cols := by
    simp [hlen, hn, Nat.succ_mul]
  rw [scrolled, ← hl, List.drop_left]
  simp

/-! ## Printing one character -/

theorem stored_WF (s : LCDTerm) (c : Nat) (h : WF s) : WF (stored s c) := by
  obtain ⟨h1, h2, h3, h4, h5⟩ := h
  exact ⟨h1, h2, h3, by simpa [stored] using h4, h5⟩

/-- A character printed before the last column. -/
theorem print_normal_char_mid (s : LCDTerm) (c : Nat) (h : WF s) (hb : InBounds s)
    (hcol : s.current_col + 1 < s.cols) :
    print_normal_char s c = { stored s c with
      cm := s.cm ++ [CmCall.write_char_at s.current_row s.current_col c],
      current_col := s.current_col + 1 } := by
  obtain ⟨h1, h2, h3, h4, h5⟩ := h
  obtain ⟨hr, hc⟩ := hb
  have e : (s.current_col + 1) % 256 = s.current_col + 1 := Nat.mod_eq_of_lt (by omega)
  simp [print_normal_char, stored, call, hr, e, hcol]

/-- A character printed in the last column of a row that is not the last. -/
theorem print_normal_char_wrap (s : LCDTerm) (c : Nat) (h : WF s) (hb : InBounds s)
    (hcol : s.current_col + 1 = s.cols) (hrow : s.current_row + 1 < s.rows) :
    print_normal_char s c = { stored s c with
      cm := s.cm ++ [CmCall.write_char_at s.current_row s.current_col c,
        CmCall.set_cursor (s.current_row + 1) 0],
      current_row := s.current_row + 1,
      current_col := 0 } := by
  obtain ⟨h1, h2, h3, h4, h5⟩ := h
  obtain ⟨hr, hc⟩ := hb
  have e : (s.current_col + 1) % 256 = s.current_col + 1 := Nat.mod_eq_of_lt (by omega)
  have e2 : (s.current_row + 1) % 256 = s.current_row + 1 := Nat.mod_eq_of_lt (by omega)
  have hn : ¬ ((s.current_row : Int) ≥ (s.rows : Int) - 1) := by omega
  simp [print_normal_char, stored, call, hr, e, e2, hcol, hn]
  omega

/-- A character printed in the last column of the last row. -/
theorem print_normal_char_scroll (s : LCDTerm) (c : Nat) (h : WF s) (hb : InBounds s)
    (hcol : s.current_col + 1 = s.cols) (hrow : s.current_row + 1 = s.rows) :
    print_normal_char s c = { s with
      curr_buff := scrolled (stored s c),
      cm := s.cm ++ [CmCall.write_char_at s.current_row s.current_col c]
        ++ CmCall.clear :: repaint_calls { s with curr_buff := scrolled (stored s c) }
        ++ [CmCall.set_cursor s.current_row s.cols,
            CmCall.set_cursor s.current_row 0],
      current_col := 0 } := by
  have hw := stored_WF s c h
  obtain ⟨h1, h2, h3, h4, h5⟩ := h
  obtain ⟨hr, hc⟩ := hb
  have e : (s.current_col + 1) % 256 = s.current_col + 1 := Nat.mod_eq_of_lt (by omega)
  have hn : ((s.current_row : Int) ≥ (s.rows : Int) - 1) := by omega
  have hw2 : WF { stored s c with
      cm := s.cm ++ [CmCall.write_char_at s.current_row s.current_col c],
      current_col := s.cols } := hw
  have := scroll_up_eq _ hw2 (by simp [stored]; omega)
  have e3 : s.cols % 256 = s.cols := Nat.mod_eq_of_lt h2
  simp only [print_normal_char, call, hr, e, e3, hcol, hn, if_true, ge_iff_le, le_refl]
  simp only [stored] at this ⊢
  rw [this]
  simp [repaint_calls, scrolled]

theorem getD_set (l : List Nat) (i j v : Nat) :
    (l.set i v).getD j 0 = if i = j ∧ i < l.length then v else l.getD j 0 := by
  simp only [List.getD_eq_getElem?_getD, List.getElem?_set]
  by_cases hij : i = j
  · subst hij
    by_cases hl : i < l.length
    · simp [hl]
    · have : l.length ≤ i := by omega
      simp [hl, List.getElem?_eq_none this]
  · simp [hij]

theorem getD_take_drop (l : List Nat) (a k c : Nat) (hc : c < k) :
    ((l.drop a).take k).getD c 0 = l.getD (a + c) 0 := by
  simp only [List.getD_eq_getElem?_getD, List.getElem?_take, List.getElem?_drop, hc, if_true]

/-- A cell is an entry of its row. -/
theorem row_getD (s : LCDTerm) (r c : Nat) (hc : c < s.cols) :
    (row s r).getD c 0 = cell s r c :=
  getD_take_drop _ _ _ _ hc

/-- The three steps of `print_del` away from the left edge. -/
theorem print_del_eq (s : LCDTerm) (h : WF s) (hb : InBounds s) (hc : 0 < s.current_col) :
    print_del s = { s with
      curr_buff := s.curr_buff.set (s.current_row * s.cols + (s.current_col - 1)) 32,
      current_col := s.current_col - 1,
      cm := s.cm ++ [CmCall.set_cursor s.current_row (s.current_col - 1),
        CmCall.write_char_at s.current_row (s.current_col - 1) 32,
        CmCall.set_cursor s.current_row (s.current_col - 1)] } := by
  obtain ⟨hr, hcc⟩ := hb
  have e1 : print_bs s = { s with
      current_col := s.current_col - 1,
      cm := s.cm ++ [CmCall.set_cursor s.current_row (s.current_col - 1)] } := by
    simp [print_bs, call, hc]
  have hw1 : WF { s with
      current_col := s.current_col - 1,
      cm := s.cm ++ [CmCall.set_cursor s.current_row (s.current_col - 1)] } := h
  have hb1 : InBounds { s with
      current_col := s.current_col - 1,
      cm := s.cm ++ [CmCall.set_cursor s.current_row (s.current_col - 1)] } :=
    ⟨hr, by show s.current_col - 1 < s.cols; omega⟩
  have e2 := print_normal_char_mid _ 32 hw1 hb1 (by show s.current_col - 1 + 1 < s.cols; omega)
  have e3 : s.current_col - 1 + 1 = s.current_col := by omega
  rw [print_del, e1, print_space, e2]
  simp [print_bs, call, stored, e3, hc]

/-- A line feed above the last row. -/
theorem print_line_feed_down (s : LCDTerm) (h : WF s) (hrow : s.current_row + 1 < s.rows) :
    print_line_feed s = { s with
      current_row := s.current_row + 1,
      current_col := lf_col s,
      cm := s.cm ++ lf_calls s ++ [CmCall.set_cursor (s.current_row + 1) (lf_col s)] } := by
  obtain ⟨h1, _, _, _, _⟩ := h
  have e2 : (s.current_row + 1) % 256 = s.current_row + 1 := Nat.mod_eq_of_lt (by omega)
  have hn : (s.current_row : Int) < (s.rows : Int) - 1 := by omega
  cases hcr : s.lf_is_crlf <;>
    simp [print_line_feed, print_cr, call, hcr, lf_col, lf_calls, e2, hn]

/-- A line feed in the last row. -/
theorem print_line_feed_scroll (s : LCDTerm) (h : WF s) (hrow : s.current_row + 1 = s.rows) :
    print_line_feed s = { s with
      curr_buff := scrolled s,
      current_col := lf_col s,
      cm := s.cm ++ lf_calls s
        ++ CmCall.clear :: repaint_calls { s with curr_buff := scrolled s }
        ++ [CmCall.set_cursor s.current_row (lf_col s),
            CmCall.set_cursor s.current_row (lf_col s)] } := by
  have hn : ¬ ((s.current_row : Int) < (s.rows : Int) - 1) := by omega
  have hr : 1 ≤ s.rows := by omega
  cases hcr : s.lf_is_crlf
  · have hcr2 : ¬ (s.lf_is_crlf = true) := by simp [hcr]
    have hp : print_line_feed s = (scroll_up s).call (CmCall.set_cursor
        (scroll_up s).current_row (scroll_up s).current_col) := by
      simp only [print_line_feed, if_neg hcr2, if_neg hn]
    rw [hp, scroll_up_eq s h hr]
    simp [call, scrolled, repaint_calls, lf_col, lf_calls, hcr]
  · have hw : WF (print_cr s) := h
    have hn2 : ¬ (((print_cr s).current_row : Int) < ((print_cr s).rows : Int) - 1) := hn
    have hp : print_line_feed s = (scroll_up (print_cr s)).call (CmCall.set_cursor
        (scroll_up (print_cr s)).current_row (scroll_up (print_cr s)).current_col) := by
      simp only [print_line_feed, if_pos hcr, if_neg hn2]
    rw [hp, scroll_up_eq (print_cr s) hw hr]
    simp [call, print_cr, scrolled, repaint_calls, lf_col, lf_calls, hcr]

/-- A byte without an arm of its own in the switch goes to `print_normal_char`. -/
theorem print_printable (s : LCDTerm) (c : Nat) (hp : c ∉ control_codes) :
    print s c = some (print_normal_char s c) := by
  simp only [control_codes, List.mem_cons, List.mem_singleton, List.mem_nil_iff,
    not_or, or_false] at hp
  obtain ⟨h0, h7, h8, h9, h10, h12, h13, h17, h18, h19, h20, h127⟩ := hp
  simp [print, print_nonescape_char, h0, h7, h8, h9, h10, h12, h13, h17, h18, h19, h20, h127]

/-- The call `print (' ')` is `print_normal_char (' ')`. -/
theorem print_space_eq (s : LCDTerm) : print s 32 = some (print_space s) :=
  print_printable s 32 (by decide)

end LCDTerm

/-! ## Printing a run of characters -/

theorem overwrite_nil (buf : List Nat) (k : Nat) : overwrite buf k [] = buf := by
  simp [overwrite]

theorem overwrite_cons (buf : List Nat) (k b : Nat) (bs : List Nat) (hk : k < buf.length) :
    overwrite (buf.set k b) (k + 1) bs = overwrite buf k (b :: bs) := by
  have e1 : (buf.set k b).take (k + 1) = buf.take k ++ [b] := by
    rw [List.set_eq_take_cons_drop b hk]
    have hl : (buf.take k).length = k := by simp; omega
    rw [List.take_append_eq_append_take, hl, List.take_of_length_le (by omega)]
    simp
  have e2 : (buf.set k b).drop (k + 1 + bs.length) = buf.drop (k + 1 + bs.length) :=
    List.drop_set_of_lt b buf (by omega)
  have e3 : k + 1 + bs.length = k + (bs.length + 1) := by omega
  rw [e3] at e2
  simp only [overwrite, e1, e2, e3, List.length_cons, List.append_assoc, List.singleton_append,
    List.cons_append, List.nil_append]

theorem overwrite_length (buf : List Nat) (k : Nat) (bs : List Nat)
    (h : k + bs.length ≤ buf.length) : (overwrite buf k bs).length = buf.length := by
  simp [overwrite]; omega

theorem overwrite_self (buf : List Nat) (k : Nat) (bs : List Nat)
    (h : k + bs.length ≤ buf.length) :
    ((overwrite buf k bs).drop k).take bs.length = bs := by
  have hl : (buf.take k).length = k := by simp; omega
  have : (overwrite buf k bs).drop k = bs ++ buf.drop (k + bs.length) := by
    unfold overwrite
    have := List.drop_left (buf.take k) (bs ++ buf.drop (k + bs.length))
    rwa [hl] at this
  rw [this, List.take_left]

theorem overwrite_before (buf : List Nat) (k : Nat) (bs : List Nat) (j n : Nat)
    (hj : j + n ≤ k) (h : k + bs.length ≤ buf.length) :
    ((overwrite buf k bs).drop j).take n = (buf.drop j).take n := by
  apply List.ext_getElem?
  intro i
  simp only [overwrite, List.getElem?_take, List.getElem?_drop, List.getElem?_append,
    List.length_take]
  by_cases hi : i < n
  · have : j + i < min k buf.length := by omega
    simp [hi, this]
    intro; omega
  · simp [hi]

theorem overwrite_after (buf : List Nat) (k : Nat) (bs : List Nat) (j : Nat)
    (hj : k + bs.length ≤ j) (h : k + bs.length ≤ buf.length) :
    (overwrite buf k bs).drop j = buf.drop j := by
  apply List.ext_getElem?
  intro i
  have h1 : ¬ (j + i < min k buf.length) := by omega
  have h2 : ¬ (j + i - min k buf.length < bs.length) := by omega
  simp only [overwrite, List.getElem?_drop, List.getElem?_append, List.length_take, h1, h2,
    if_false]
  congr 1
  omega

namespace LCDTerm

/-- Printable bytes fed to a row that is not the last, no more than fit in
the rest of the row: they are copied into the buffer at the cursor, and the
cursor moves right, or to the start of the next row when the row is full. -/
theorem feed_row (bs : List Nat) : ∀ (s : LCDTerm), WF s → InBounds s →
    s.current_row + 1 < s.rows → s.current_col + bs.length ≤ s.cols →
    (∀ b ∈ bs, b ∉ control_codes) →
    ∃ t, feed s bs = some t ∧ t.rows = s.rows ∧ t.cols = s.cols ∧
      t.curr_buff = overwrite s.curr_buff (s.current_row * s.cols + s.current_col) bs ∧
      (s.current_col + bs.length < s.cols →
        t.current_row = s.current_row ∧ t.current_col = s.current_col + bs.length) ∧
      (s.current_col + bs.length = s.cols →
        t.current_row = s.current_row + 1 ∧ t.current_col = 0) := by
  induction bs with
  | nil =>
    intro s _ hb _ _ _
    refine ⟨s, rfl, rfl, rfl, (overwrite_nil _ _).symm, fun _ => ⟨rfl, rfl⟩, fun h => ?_⟩
    have := hb.2
    simp at h
    omega
  | cons b bs ih =>
    intro s h hb hrow hlen hp
    have hpb : b ∉ control_codes := hp b (List.mem_cons_self _ _)
    have hps : ∀ x ∈ bs, x ∉ control_codes := fun x hx => hp x (List.mem_cons_of_mem _ hx)
    have hk : s.current_row * s.cols + s.current_col < s.curr_buff.length := by
      rw [h.2.2.2.1]; exact index_lt hb.1 hb.2
    have hfeed : feed s (b :: bs) = feed (print_normal_char s b) bs := by
      simp [feed, print_printable s b hpb]
    rw [hfeed]
    simp only [List.length_cons] at hlen ⊢
    by_cases hcol : s.current_col + 1 < s.cols
    · have e := print_normal_char_mid s b h hb hcol
      have hw' : WF (print_normal_char s b) := by rw [e]; exact stored_WF s b h
      have hb' : InBounds (print_normal_char s b) := by rw [e]; exact ⟨hb.1, hcol⟩
      have hrow' : (print_normal_char s b).current_row + 1 < (print_normal_char s b).rows := by
        rw [e]; exact hrow
      have hlen' : (print_normal_char s b).current_col + bs.length
          ≤ (print_normal_char s b).cols := by
        rw [e]; show s.current_col + 1 + bs.length ≤ s.cols; omega
      obtain ⟨t, ht, hr1, hc1, hbuf, hlt, heq⟩ := ih _ hw' hb' hrow' hlen' hps
      rw [e] at hr1 hc1 hbuf hlt heq
      refine ⟨t, ht, hr1, hc1, ?_, ?_, ?_⟩
      · rw [hbuf]
        exact overwrite_cons _ _ _ _ hk
      · intro h2
        have := hlt (by show s.current_col + 1 + bs.length < s.cols; omega)
        exact ⟨this.1, by rw [this.2]; show s.current_col + 1 + bs.length = _; omega⟩
      · intro h2
        exact heq (by show s.current_col + 1 + bs.length = s.cols; omega)
    · have hcol2 : s.current_col + 1 = s.cols := by have := hb.2; omega
      have hnil : bs = [] := List.eq_nil_of_length_eq_zero (by omega)
      subst hnil
      have e := print_normal_char_wrap s b h hb hcol2 hrow
      refine ⟨print_normal_char s b, rfl, ?_, ?_, ?_, ?_, ?_⟩
      · rw [e]; rfl
      · rw [e]; rfl
      · rw [e, ← overwrite_cons _ _ _ _ hk, overwrite_nil]
        rfl
      · intro h2; simp at h2; omega
      · intro _; rw [e]; exact ⟨rfl, rfl⟩

end LCDTerm

/-! ## The buffer mirrors the panel -/

theorem display_append (rows cols : Nat) (d0 : List Nat) (l1 l2 : List CmCall) :
    display rows cols d0 (l1 ++ l2) = display rows cols (display rows cols d0 l1) l2 := by
  simp [display, List.foldl_append]

theorem display_cons (rows cols : Nat) (d0 : List Nat) (k : CmCall) (l : List CmCall) :
    display rows cols d0 (k :: l) = display rows cols (display_step rows cols d0 k) l := rfl

theorem display_nil (rows cols : Nat) (d0 : List Nat) : display rows cols d0 [] = d0 := rfl

theorem render_zeros (n : Nat) :
    (List.replicate n 0).map render = List.replicate n 32 := by
  simp [render]

namespace LCDTerm

theorem Step.refl (d0 : List Nat) (s : LCDTerm) (h : WF s) (hb : InBounds s) :
    Step d0 s s :=
  ⟨h, hb, rfl, rfl, id⟩

theorem Step.trans {d0 : List Nat} {s t u : LCDTerm} (h1 : Step d0 s t) (h2 : Step d0 t u) :
    Step d0 s u :=
  ⟨h2.1, h2.2.1, h2.2.2.1.trans h1.2.2.1, h2.2.2.2.1.trans h1.2.2.2.1,
    fun m => h2.2.2.2.2 (h1.2.2.2.2 m)⟩

/-- A clear followed by the repaint of a well-formed state shows its buffer. -/
theorem display_clear_repaint (u : LCDTerm) (h : WF u) (d : List Nat) :
    display u.rows u.cols d (CmCall.clear :: repaint_calls u) = u.curr_buff.map render := by
  obtain ⟨_, _, hst, hlen, _⟩ := h
  rw [display_cons, repaint_calls, hst]
  exact display_repaint u.rows u.cols u.curr_buff hlen _ (by simp [display_step])

/-- A call that changes no character, and a move of the cursor to a cell on
the screen. -/
theorem step_move (d0 : List Nat) (s : LCDTerm) (h : WF s) (k : CmCall)
    (hk : ∀ d, display_step s.rows s.cols d k = d) (r c : Nat)
    (hr : r < s.rows) (hc : c < s.cols) :
    Step d0 s { s with cm := s.cm ++ [k], current_row := r, current_col := c } := by
  refine ⟨h, ⟨hr, hc⟩, rfl, rfl, fun m => ?_⟩
  simp only [Mirror] at m ⊢
  rw [display_append, m, display_cons, hk, display_nil]

theorem step_call (d0 : List Nat) (s : LCDTerm) (h : WF s) (hb : InBounds s) (k : CmCall)
    (hk : ∀ d, display_step s.rows s.cols d k = d) : Step d0 s (s.call k) :=
  step_move d0 s h k hk s.current_row s.current_col hb.1 hb.2

theorem step_print_bs (d0 : List Nat) (s : LCDTerm) (h : WF s) (hb : InBounds s) :
    Step d0 s (print_bs s) := by
  by_cases hc : 0 < s.current_col
  · have e : print_bs s = { s with
        cm := s.cm ++ [CmCall.set_cursor s.current_row (s.current_col - 1)],
        current_row := s.current_row,
        current_col := s.current_col - 1 } := by
      simp [print_bs, call, hc]
    rw [e]
    exact step_move d0 s h (CmCall.set_cursor s.current_row (s.current_col - 1))
      (fun _ => rfl) _ _ hb.1 (by have := hb.2; omega)
  · have e : print_bs s = s := by simp [print_bs, hc]
    rw [e]
    exact Step.refl d0 s h hb

theorem step_print_cr (d0 : List Nat) (s : LCDTerm) (h : WF s) (hb : InBounds s) :
    Step d0 s (print_cr s) :=
  step_move d0 s h (CmCall.set_cursor s.current_row 0) (fun _ => rfl) s.current_row 0
    hb.1 (by have := hb.2; omega)

theorem step_home (d0 : List Nat) (s : LCDTerm) (h : WF s) (hb : InBounds s) :
    Step d0 s (home s) :=
  step_move d0 s h (CmCall.set_cursor 0 0) (fun _ => rfl) 0 0
    (by have := hb.1; omega) (by have := hb.2; omega)

theorem step_set_cursor (d0 : List Nat) (s : LCDTerm) (h : WF s) (hb : InBounds s)
    (r c : Nat) : Step d0 s (set_cursor s r c) := by
  by_cases hrc : r < s.rows ∧ c < s.cols
  · have e : set_cursor s r c = { s with
        cm := s.cm ++ [CmCall.set_cursor r c],
        current_row := r,
        current_col := c } := by
      simp [set_cursor, call, hrc]
    rw [e]
    exact step_move d0 s h (CmCall.set_cursor r c) (fun _ => rfl) _ _ hrc.1 hrc.2
  · have e : set_cursor s r c = s := by simp [set_cursor, hrc]
    rw [e]
    exact Step.refl d0 s h hb

theorem display_clear_repaint_buff (s : LCDTerm) (h : WF s) (B : List Nat)
    (hB : B.length = s.rows * s.cols) (d : List Nat) :
    display s.rows s.cols d (CmCall.clear :: repaint_calls { s with curr_buff := B })
      = B.map render :=
  display_clear_repaint { s with curr_buff := B } ⟨h.1, h.2.1, h.2.2.1, hB, h.2.2.2.2⟩ d

theorem step_scroll_up (d0 : List Nat) (s : LCDTerm) (h : WF s) (hb : InBounds s) :
    Step d0 s (scroll_up s) := by
  have hr : 1 ≤ s.rows := by have := hb.1; omega
  have hB := scrolled_length s h hr
  rw [scroll_up_eq s h hr]
  refine ⟨⟨h.1, h.2.1, h.2.2.1, hB, h.2.2.2.2⟩, hb, rfl, rfl, fun _ => ?_⟩
  simp only [Mirror]
  rw [display_append, display_append, display_clear_repaint_buff s h _ hB]
  rfl

theorem step_print_line_feed (d0 : List Nat) (s : LCDTerm) (h : WF s) (hb : InBounds s) :
    Step d0 s (print_line_feed s) := by
  have hlc : lf_col s < s.cols := by
    unfold lf_col; split
    · have := hb.2; omega
    · exact hb.2
  have hcalls : ∀ d, display s.rows s.cols d (lf_calls s) = d := by
    intro d; unfold lf_calls; split <;> rfl
  by_cases hrow : s.current_row + 1 < s.rows
  · rw [print_line_feed_down s h hrow]
    refine ⟨h, ⟨hrow, hlc⟩, rfl, rfl, fun m => ?_⟩
    simp only [Mirror] at m ⊢
    rw [display_append, display_append, m, hcalls]
    rfl
  · have hrow2 : s.current_row + 1 = s.rows := by have := hb.1; omega
    have hr : 1 ≤ s.rows := by omega
    have hB := scrolled_length s h hr
    rw [print_line_feed_scroll s h hrow2]
    refine ⟨⟨h.1, h.2.1, h.2.2.1, hB, h.2.2.2.2⟩, ⟨hb.1, hlc⟩, rfl, rfl, fun _ => ?_⟩
    simp only [Mirror]
    rw [display_append, display_append, display_clear_repaint_buff s h _ hB]
    rfl

theorem stored_rows (s : LCDTerm) (c : Nat) : (stored s c).rows = s.rows := rfl

theorem stored_cols (s : LCDTerm) (c : Nat) : (stored s c).cols = s.cols := rfl

theorem step_print_normal_char (d0 : List Nat) (s : LCDTerm) (h : WF s) (hb : InBounds s)
    (c : Nat) : Step d0 s (print_normal_char s c) := by
  have hw := stored_WF s c h
  have hwrite : ∀ d, d = s.curr_buff.map render →
      display_step s.rows s.cols d (CmCall.write_char_at s.current_row s.current_col c)
        = (stored s c).curr_buff.map render := by
    intro d hd
    simp only [display_step, hb.1, hb.2, and_self, if_true, stored, hd, List.map_set]
  by_cases hcol : s.current_col + 1 < s.cols
  · rw [print_normal_char_mid s c h hb hcol]
    refine ⟨hw, ⟨hb.1, hcol⟩, rfl, rfl, fun m => ?_⟩
    simp only [Mirror, stored_rows, stored_cols] at m ⊢
    rw [display_append, m, display_cons, hwrite _ rfl]
    rfl
  · have hcol2 : s.current_col + 1 = s.cols := by have := hb.2; omega
    by_cases hrow : s.current_row + 1 < s.rows
    · rw [print_normal_char_wrap s c h hb hcol2 hrow]
      refine ⟨hw, ⟨hrow, by show 0 < s.cols; have := hb.2; omega⟩, rfl, rfl, fun m => ?_⟩
      simp only [Mirror, stored_rows, stored_cols] at m ⊢
      rw [display_append, m, display_cons, hwrite _ rfl]
      rfl
    · have hrow2 : s.current_row + 1 = s.rows := by have := hb.1; omega
      have hB := scrolled_length (stored s c) hw (by show 1 ≤ s.rows; omega)
      rw [print_normal_char_scroll s c h hb hcol2 hrow2]
      refine ⟨⟨h.1, h.2.1, h.2.2.1, hB, h.2.2.2.2⟩,
        ⟨hb.1, by show 0 < s.cols; have := hb.2; omega⟩, rfl, rfl, fun _ => ?_⟩
      simp only [Mirror]
      rw [display_append, display_append, display_clear_repaint_buff s h _ hB]
      rfl

theorem clear_buff_eq (s : LCDTerm) (h : WF s) :
    clear_buff s = { s with curr_buff := List.replicate (s.rows * s.cols) 0 } := by
  obtain ⟨_, _, hst, hlen, _⟩ := h
  simp only [clear_buff, hst, memset_whole _ _ _ hlen]

theorem clear_eq (s : LCDTerm) (h : WF s) :
    clear s = { s with
      cm := s.cm ++ [CmCall.clear, CmCall.set_cursor 0 0],
      curr_buff := List.replicate (s.rows * s.cols) 0,
      current_row := 0,
      current_col := 0 } := by
  have hw : WF (s.call CmCall.clear) := h
  have hp : clear s = home (clear_buff (s.call CmCall.clear)) := rfl
  rw [hp, clear_buff_eq _ hw]
  simp [home, call]

theorem print_form_feed_eq (s : LCDTerm) (h : WF s) :
    print_form_feed s = { s with
      cm := s.cm ++ [CmCall.clear],
      curr_buff := List.replicate (s.rows * s.cols) 0,
      current_row := 0,
      current_col := 0 } := by
  have hw : WF (s.call CmCall.clear) := h
  have hp : print_form_feed s = { clear_buff (s.call CmCall.clear) with
      current_row := 0,
      current_col := 0 } := rfl
  rw [hp, clear_buff_eq _ hw]
  simp [call]

theorem step_clear (d0 : List Nat) (s : LCDTerm) (h : WF s) (hb : InBounds s) :
    Step d0 s (clear s) := by
  rw [clear_eq s h]
  refine ⟨⟨h.1, h.2.1, h.2.2.1, by simp, h.2.2.2.2⟩,
    ⟨by show 0 < s.rows; have := hb.1; omega, by show 0 < s.cols; have := hb.2; omega⟩,
    rfl, rfl, fun _ => ?_⟩
  simp only [Mirror]
  rw [display_append, render_zeros]
  rfl

theorem step_print_form_feed (d0 : List Nat) (s : LCDTerm) (h : WF s) (hb : InBounds s) :
    Step d0 s (print_form_feed s) := by
  rw [print_form_feed_eq s h]
  refine ⟨⟨h.1, h.2.1, h.2.2.1, by simp, h.2.2.2.2⟩,
    ⟨by show 0 < s.rows; have := hb.1; omega, by show 0 < s.cols; have := hb.2; omega⟩,
    rfl, rfl, fun _ => ?_⟩
  simp only [Mirror]
  rw [display_append, render_zeros]
  rfl

theorem step_print_del (d0 : List Nat) (s : LCDTerm) (h : WF s) (hb : InBounds s) :
    Step d0 s (print_del s) := by
  have h1 := step_print_bs d0 s h hb
  have h2 := step_print_normal_char d0 (print_bs s) h1.1 h1.2.1 32
  have h3 := step_print_bs d0 (print_normal_char (print_bs s) 32) h2.1 h2.2.1
  exact (h1.trans h2).trans h3

/-- After a character the column is one more, or 0. -/
theorem print_normal_char_col (s : LCDTerm) (h : WF s) (hb : InBounds s) (c : Nat) :
    ((print_normal_char s c).current_col = s.current_col + 1 ∧
      s.current_col + 1 < s.cols) ∨
    (print_normal_char s c).current_col = 0 := by
  by_cases hcol : s.current_col + 1 < s.cols
  · left
    rw [print_normal_char_mid s c h hb hcol]
    exact ⟨rfl, hcol⟩
  · right
    have hcol2 : s.current_col + 1 = s.cols := by have := hb.2; omega
    by_cases hrow : s.current_row + 1 < s.rows
    · rw [print_normal_char_wrap s c h hb hcol2 hrow]
    · have hrow2 : s.current_row + 1 = s.rows := by have := hb.1; omega
      rw [print_normal_char_scroll s c h hb hcol2 hrow2]

theorem print_tab_loop_succ (fuel : Nat) (s : LCDTerm) :
    print_tab_loop (fuel + 1) s =
      if (print_normal_char s 32).current_col % (print_normal_char s 32).tab_space ≠ 0
      then print_tab_loop fuel (print_normal_char s 32)
      else some (print_normal_char s 32) := rfl

/-- The loop of `print_tab` is left within `cols - current_col` passes. -/
theorem step_print_tab_loop (d0 : List Nat) (fuel : Nat) : ∀ (s : LCDTerm), WF s →
    InBounds s → s.cols - s.current_col ≤ fuel →
    ∃ t, print_tab_loop fuel s = some t ∧ Step d0 s t := by
  induction fuel with
  | zero =>
    intro s _ hb hf
    have := hb.2
    omega
  | succ fuel ih =>
    intro s h hb hf
    have h1 := step_print_normal_char d0 s h hb 32
    by_cases hm : (print_normal_char s 32).current_col % (print_normal_char s 32).tab_space ≠ 0
    · have hcol : (print_normal_char s 32).current_col = s.current_col + 1 := by
        rcases print_normal_char_col s h hb 32 with h2 | h2
        · exact h2.1
        · rw [h2] at hm; simp at hm
      have hf2 : (print_normal_char s 32).cols - (print_normal_char s 32).current_col ≤ fuel := by
        rw [hcol, h1.2.2.2.1]; omega
      obtain ⟨t, ht, hst⟩ := ih _ h1.1 h1.2.1 hf2
      refine ⟨t, ?_, h1.trans hst⟩
      rw [print_tab_loop_succ, if_pos hm]
      exact ht
    · refine ⟨print_normal_char s 32, ?_, h1⟩
      rw [print_tab_loop_succ, if_neg hm]

theorem step_print (d0 : List Nat) (s : LCDTerm) (h : WF s) (hb : InBounds s) (c : Nat) :
    ∃ t, print s c = some t ∧ Step d0 s t := by
  by_cases hp : c ∈ control_codes
  · simp only [control_codes, List.mem_cons, List.mem_singleton, List.mem_nil_iff,
      or_false] at hp
    rcases hp with rfl | rfl | rfl | rfl | rfl | rfl | rfl | rfl | rfl | rfl | rfl | rfl
    · exact ⟨print_bell s, by simp [print, print_nonescape_char],
        step_call d0 s h hb CmCall.bell (fun _ => rfl)⟩
    · exact ⟨print_bell s, by simp [print, print_nonescape_char],
        step_call d0 s h hb CmCall.bell (fun _ => rfl)⟩
    · refine ⟨if s.swap_bs_del then print_del s else print_bs s,
        by simp [print, print_nonescape_char], ?_⟩
      split
      · exact step_print_del d0 s h hb
      · exact step_print_bs d0 s h hb
    · obtain ⟨t, ht, hst⟩ :=
        step_print_tab_loop d0 256 s h hb (by have := h.2.1; omega)
      exact ⟨t, by simpa [print, print_nonescape_char, print_tab] using ht, hst⟩
    · exact ⟨print_line_feed s, by simp [print, print_nonescape_char],
        step_print_line_feed d0 s h hb⟩
    · exact ⟨print_form_feed s, by simp [print, print_nonescape_char],
        step_print_form_feed d0 s h hb⟩
    · exact ⟨print_cr s, by simp [print, print_nonescape_char], step_print_cr d0 s h hb⟩
    · exact ⟨s.call CmCall.backlight_off, by simp [print, print_nonescape_char],
        step_call d0 s h hb CmCall.backlight_off (fun _ => rfl)⟩
    · exact ⟨s.call CmCall.backlight_on, by simp [print, print_nonescape_char],
        step_call d0 s h hb CmCall.backlight_on (fun _ => rfl)⟩
    · exact ⟨s.call CmCall.cursor_off, by simp [print, print_nonescape_char],
        step_call d0 s h hb CmCall.cursor_off (fun _ => rfl)⟩
    · exact ⟨s.call CmCall.cursor_on, by simp [print, print_nonescape_char],
        step_call d0 s h hb CmCall.cursor_on (fun _ => rfl)⟩
    · refine ⟨if s.swap_bs_del then print_bs s else print_del s,
        by simp [print, print_nonescape_char], ?_⟩
      split
      · exact step_print_bs d0 s h hb
      · exact step_print_del d0 s h hb
  · exact ⟨print_normal_char s c, print_printable s c hp,
      step_print_normal_char d0 s h hb c⟩

theorem step_print_str (d0 : List Nat) (mem : List Nat) : ∀ (s : LCDTerm), WF s →
    InBounds s → ∃ t, print_str s mem = some t ∧ Step d0 s t := by
  induction mem with
  | nil => exact fun s h hb => ⟨s, rfl, Step.refl d0 s h hb⟩
  | cons c rest ih =>
    intro s h hb
    by_cases hc : c ≠ 0
    · obtain ⟨t, ht, hst⟩ := step_print d0 s h hb c
      obtain ⟨u, hu, htu⟩ := ih t hst.1 hst.2.1
      exact ⟨u, by simp [print_str, hc, ht, hu], hst.trans htu⟩
    · exact ⟨s, by simp [print_str, hc], Step.refl d0 s h hb⟩

theorem step_op (d0 : List Nat) (s : LCDTerm) (h : WF s) (hb : InBounds s) (op : Op) :
    ∃ t, step s op = some t ∧ Step d0 s t := by
  cases op with
  | print c => exact step_print d0 s h hb c
  | print_str mem => exact step_print_str d0 mem s h hb
  | set_cursor r c => exact ⟨_, rfl, step_set_cursor d0 s h hb r c⟩
  | home => exact ⟨_, rfl, step_home d0 s h hb⟩
  | clear => exact ⟨_, rfl, step_clear d0 s h hb⟩
  | scroll_up => exact ⟨_, rfl, step_scroll_up d0 s h hb⟩

theorem step_run (d0 : List Nat) (ops : List Op) : ∀ (s : LCDTerm), WF s →
    InBounds s → ∃ t, run s ops = some t ∧ Step d0 s t := by
  induction ops with
  | nil => exact fun s h hb => ⟨s, rfl, Step.refl d0 s h hb⟩
  | cons op rest ih =>
    intro s h hb
    obtain ⟨t, ht, hst⟩ := step_op d0 s h hb op
    obtain ⟨u, hu, htu⟩ := ih t hst.1 hst.2.1
    exact ⟨u, by simp [run, ht, hu], hst.trans htu⟩

theorem malloc_length (junk : Nat → Nat) (n : Nat) : (malloc junk n).length = n := by
  simp [malloc]

theorem init_eq (junk : Nat → Nat) (s : LCDTerm) :
    init junk s = { s with
      cm := s.cm ++ [CmCall.init, CmCall.clear, CmCall.set_cursor 0 0],
      col_stride := s.cols,
      curr_buff := List.replicate (s.rows * s.cols) 0,
      current_row := 0,
      current_col := 0 } := by
  have e := memset_whole (malloc junk (s.rows * s.cols)) 0 (s.rows * s.cols)
    (malloc_length junk _)
  simp [init, clear_buff, home, call, sizeof_Char, e]

theorem ctor_fields (rows cols flags : Nat) :
    (ctor rows cols flags).rows = rows ∧ (ctor rows cols flags).cols = cols ∧
    (ctor rows cols flags).cm = [] ∧ (ctor rows cols flags).tab_space = 5 := by
  unfold ctor
  cases logical_and flags LCDTERM_LF_IS_CRLF <;>
    cases logical_and flags LCDTERM_SWAP_BS_DEL <;> simp

/-- The state after the constructor and `init`, on a panel with at least one
row and one column: well-formed, cursor on the screen, panel mirrored. -/
theorem init_good (rows cols flags : Nat) (junk : Nat → Nat) (d0 : List Nat)
    (hr : 1 ≤ rows) (hr2 : rows < 256) (hc : 1 ≤ cols) (hc2 : cols < 256) :
    WF (init junk (ctor rows cols flags)) ∧ InBounds (init junk (ctor rows cols flags)) ∧
    (init junk (ctor rows cols flags)).rows = rows ∧
    (init junk (ctor rows cols flags)).cols = cols ∧
    Mirror d0 (init junk (ctor rows cols flags)) := by
  obtain ⟨e1, e2, e3, e4⟩ := ctor_fields rows cols flags
  rw [init_eq]
  refine ⟨⟨?_, ?_, rfl, ?_, ?_⟩, ⟨?_, ?_⟩, e1, e2, ?_⟩
  · show (ctor rows cols flags).rows < 256
    omega
  · show (ctor rows cols flags).cols < 256
    omega
  · simp
  · show 0 < (ctor rows cols flags).tab_space
    omega
  · show 0 < (ctor rows cols flags).rows
    omega
  · show 0 < (ctor rows cols flags).cols
    omega
  · simp only [Mirror, e3, List.nil_append, render_zeros]
    rfl

end LCDTerm

namespace LCDTerm

theorem memset_again (buf : List Nat) (v n : Nat) :
    memset (memset buf 0 v n) 0 v n = memset buf 0 v n := by
  simp [memset]

theorem clear_buff_again (s : LCDTerm) :
    (clear_buff (clear_buff s)).curr_buff = (clear_buff s).curr_buff :=
  memset_again s.curr_buff 0 (s.rows * s.col_stride)

theorem print_str_eq_feed (mem : List Nat) : ∀ s : LCDTerm,
    print_str s (mem ++ [0]) = feed s (mem.takeWhile (fun b => b != 0)) := by
  induction mem with
  | nil => intro s; simp [print_str, feed]
  | cons c rest ih =>
    intro s
    by_cases hc : c = 0
    · simp [print_str, feed, hc]
    · have e : (c :: rest).takeWhile (fun b => b != 0)
          = c :: rest.takeWhile (fun b => b != 0) := by
        have hb : (c != 0) = true := by simp [hc]
        rw [List.takeWhile_cons, hb]
        rfl
      rw [e]
      simp only [List.cons_append, print_str, feed, ne_eq, hc, not_false_eq_true, if_true]
      congr 1
      funext t
      exact ih t

end LCDTerm

namespace LCDTerm

/-! ## The member `swap_bs_del` is read by the switch only -/

theorem scroll_up_with_swap (s : LCDTerm) (b : Bool) :
    scroll_up (with_swap s b) = with_swap (scroll_up s) b := by
  simp [with_swap, scroll_up, buff_to_display_eq, call, repaint_calls]

theorem print_bs_with_swap (s : LCDTerm) (b : Bool) :
    print_bs (with_swap s b) = with_swap (print_bs s) b := by
  unfold print_bs
  by_cases hc : 0 < s.current_col
  · have hc' : 0 < (with_swap s b).current_col := hc
    simp [hc, hc']
    rfl
  · have hc' : ¬ 0 < (with_swap s b).current_col := hc
    simp [hc, hc']

theorem print_normal_char_with_swap (s : LCDTerm) (b : Bool) (c : Nat) :
    print_normal_char (with_swap s b) c = with_swap (print_normal_char s c) b := by
  simp only [print_normal_char, with_swap, scroll_up, buff_to_display_eq, call, repaint_calls]
  split_ifs <;> rfl

theorem print_del_with_swap (s : LCDTerm) (b : Bool) :
    print_del (with_swap s b) = with_swap (print_del s) b := by
  simp only [print_del, print_space, print_bs_with_swap, print_normal_char_with_swap]

end LCDTerm

namespace LCDTerm

/-- The state that the constructor and `init` leave. -/
theorem init_ctor_fields (rows cols flags : Nat) (junk : Nat → Nat) :
    (init junk (ctor rows cols flags)).rows = rows ∧
    (init junk (ctor rows cols flags)).cols = cols ∧
    (init junk (ctor rows cols flags)).curr_buff = List.replicate (rows * cols) 0 ∧
    (init junk (ctor rows cols flags)).current_row = 0 ∧
    (init junk (ctor rows cols flags)).current_col = 0 := by
  obtain ⟨e1, e2, _, _⟩ := ctor_fields rows cols flags
  rw [init_eq]
  refine ⟨e1, e2, ?_, rfl, rfl⟩
  show List.replicate ((ctor rows cols flags).rows * (ctor rows cols flags).cols) 0 = _
  rw [e1, e2]

end LCDTerm

theorem overwrite_getD (buf : List Nat) (k : Nat) (bs : List Nat) (i : Nat)
    (h : k + bs.length ≤ buf.length) :
    (overwrite buf k bs).getD i 0
      = if k ≤ i ∧ i < k + bs.length then bs.getD (i - k) 0 else buf.getD i 0 := by
  have hl : (buf.take k).length = k := by simp; omega
  simp only [overwrite, List.getD_eq_getElem?_getD, List.getElem?_append, hl,
    List.getElem?_take, List.getElem?_drop]
  by_cases h1 : i < k
  · have h3 : ¬ (k ≤ i ∧ i < k + bs.length) := by omega
    simp [h1, h3]
  · by_cases h2 : i - k < bs.length
    · have h3 : k ≤ i ∧ i < k + bs.length := ⟨by omega, by omega⟩
      simp [h1, h2, h3]
    · have h3 : ¬ (k ≤ i ∧ i < k + bs.length) := by omega
      have e : k + bs.length + (i - k - bs.length) = i := by omega
      simp [h1, h2, h3, e]

/-- A cell of a buffer in which part of row `r` has been overwritten. -/
theorem overwrite_cell (buf : List Nat) (cols r c : Nat) (bs : List Nat)
    (hfit : c + bs.length ≤ cols) (hlen : r * cols + cols ≤ buf.length)
    (r' c' : Nat) (hc' : c' < cols) :
    (overwrite buf (r * cols + c) bs).getD (r' * cols + c') 0
      = if r' = r ∧ c ≤ c' ∧ c' < c + bs.length then bs.getD (c' - c) 0
        else buf.getD (r' * cols + c') 0 := by
  rw [overwrite_getD _ _ _ _ (by omega)]
  by_cases hr : r' = r
  · subst hr
    by_cases hin : c ≤ c' ∧ c' < c + bs.length
    · have h1 : r' * cols + c ≤ r' * cols + c' ∧
          r' * cols + c' < r' * cols + c + bs.length := ⟨by omega, by omega⟩
      have e : r' * cols + c' - (r' * cols + c) = c' - c := by omega
      rw [if_pos h1, if_pos ⟨rfl, hin⟩, e]
    · have h1 : ¬ (r' * cols + c ≤ r' * cols + c' ∧
          r' * cols + c' < r' * cols + c + bs.length) := by omega
      rw [if_neg h1, if_neg (fun hh => hin hh.2)]
  · have h1 : ¬ (r * cols + c ≤ r' * cols + c' ∧
        r' * cols + c' < r * cols + c + bs.length) := by
      rcases Nat.lt_or_gt_of_ne hr with hlt | hgt
      · have h2 : (r' + 1) * cols ≤ r * cols := Nat.mul_le_mul_right _ hlt
        rw [Nat.succ_mul] at h2
        omega
      · have h2 : (r + 1) * cols ≤ r' * cols := Nat.mul_le_mul_right _ hgt
        rw [Nat.succ_mul] at h2
        omega
    rw [if_neg h1, if_neg (fun hh => hr hh.1)]

namespace LCDTerm

/-- The loop of `print_tab` when the next tab stop is `m + 1` columns to the
right and on the screen: it prints `m + 1` spaces. -/
theorem print_tab_loop_spaces (m : Nat) : ∀ (fuel : Nat) (s : LCDTerm), WF s →
    InBounds s → m + 1 ≤ fuel → s.current_col + (m + 1) < s.cols →
    (s.current_col + (m + 1)) % s.tab_space = 0 →
    (∀ j, 0 < j → j < m + 1 → (s.current_col + j) % s.tab_space ≠ 0) →
    ∃ t, print_tab_loop fuel s = some t ∧ t.rows = s.rows ∧ t.cols = s.cols ∧
      t.current_row = s.current_row ∧ t.current_col = s.current_col + (m + 1) ∧
      t.curr_buff = overwrite s.curr_buff (s.current_row * s.cols + s.current_col)
        (List.replicate (m + 1) 32) ∧
      t.cm = s.cm ++ (List.range (m + 1)).map
        (fun j => CmCall.write_char_at s.current_row (s.current_col + j) 32) := by
  induction m with
  | zero =>
    intro fuel s h hb hf hfit hstop _
    obtain ⟨f, rfl⟩ : ∃ f, fuel = f + 1 := ⟨fuel - 1, by omega⟩
    have hk : s.current_row * s.cols + s.current_col < s.curr_buff.length := by
      rw [h.2.2.2.1]; exact index_lt hb.1 hb.2
    have e := print_normal_char_mid s 32 h hb (by omega)
    have hm : ¬ ((print_normal_char s 32).current_col
        % (print_normal_char s 32).tab_space ≠ 0) := by
      rw [e]; simpa using hstop
    refine ⟨print_normal_char s 32, by rw [print_tab_loop_succ, if_neg hm], ?_⟩
    rw [e]
    refine ⟨rfl, rfl, rfl, rfl, ?_, rfl⟩
    show s.curr_buff.set _ 32 = _
    rw [List.replicate_one, ← overwrite_cons _ _ _ _ hk, overwrite_nil]
  | succ m ih =>
    intro fuel s h hb hf hfit hstop hnot
    obtain ⟨f, rfl⟩ : ∃ f, fuel = f + 1 := ⟨fuel - 1, by omega⟩
    have hk : s.current_row * s.cols + s.current_col < s.curr_buff.length := by
      rw [h.2.2.2.1]; exact index_lt hb.1 hb.2
    have hcol : s.current_col + 1 < s.cols := by omega
    have e := print_normal_char_mid s 32 h hb hcol
    have hw' : WF (print_normal_char s 32) := by rw [e]; exact stored_WF s 32 h
    have hb' : InBounds (print_normal_char s 32) := by rw [e]; exact ⟨hb.1, hcol⟩
    have hm : (print_normal_char s 32).current_col
        % (print_normal_char s 32).tab_space ≠ 0 := by
      rw [e]; exact hnot 1 (by omega) (by omega)
    have hfit' : (print_normal_char s 32).current_col + (m + 1)
        < (print_normal_char s 32).cols := by
      rw [e]; show s.current_col + 1 + (m + 1) < s.cols; omega
    have hstop' : ((print_normal_char s 32).current_col + (m + 1))
        % (print_normal_char s 32).tab_space = 0 := by
      rw [e]; show (s.current_col + 1 + (m + 1)) % s.tab_space = 0
      rw [← hstop]; congr 1; omega
    have hnot' : ∀ j, 0 < j → j < m + 1 → ((print_normal_char s 32).current_col + j)
        % (print_normal_char s 32).tab_space ≠ 0 := by
      intro j hj hj2
      rw [e]; show (s.current_col + 1 + j) % s.tab_space ≠ 0
      have := hnot (j + 1) (by omega) (by omega)
      rwa [show s.current_col + 1 + j = s.current_col + (j + 1) by omega]
    obtain ⟨t, ht, hr1, hc1, hrow1, hcol1, hbuf, hcm⟩ :=
      ih f _ hw' hb' (by omega) hfit' hstop' hnot'
    rw [e] at hr1 hc1 hrow1 hcol1 hbuf hcm
    refine ⟨t, by rw [print_tab_loop_succ, if_pos hm]; exact ht, hr1, hc1, hrow1, ?_, ?_, ?_⟩
    · rw [hcol1]; show s.current_col + 1 + (m + 1) = _; omega
    · rw [hbuf]
      show overwrite (s.curr_buff.set _ 32) (s.current_row * s.cols + (s.current_col + 1)) _ = _
      rw [show s.current_row * s.cols + (s.current_col + 1)
        = s.current_row * s.cols + s.current_col + 1 by omega,
        overwrite_cons _ _ _ _ hk, ← List.replicate_succ]
    · rw [hcm]
      show (s.cm ++ [CmCall.write_char_at s.current_row s.current_col 32]) ++
        (List.range (m + 1)).map
          (fun j => CmCall.write_char_at s.current_row (s.current_col + 1 + j) 32) = _
      rw [List.range_succ_eq_map (m + 1), List.map_cons, List.map_map, List.append_assoc,
        List.singleton_append]
      congr 2
      apply List.map_congr_left
      intro j _
      simp only [Function.comp, Nat.succ_eq_add_one]
      congr 1
      omega

end LCDTerm

namespace LCD8574Arduino

/-! ## The driver -/

theorem send_byte_wire (d : LCD8574Arduino) (value data_mode : Nat) :
    (send_byte d value data_mode).wire.length = d.wire.length + 6 := by
  simp [send_byte, write4bits, do_clock, write_i2c_byte]

end LCD8574Arduino

namespace LCDTerm

/-- The three steps of `print_del` at the left edge of a display with at least
two columns: the first backspace does nothing, the space is printed under the
cursor, the second backspace brings the cursor back. -/
theorem print_del_margin (s : LCDTerm) (h : WF s) (hb : InBounds s) (hc : 2 ≤ s.cols)
    (hcol : s.current_col = 0) :
    print_del s = { s with
      curr_buff := s.curr_buff.set (s.current_row * s.cols + 0) 32,
      current_col := 0,
      cm := s.cm ++ [CmCall.write_char_at s.current_row 0 32,
        CmCall.set_cursor s.current_row 0] } := by
  have e1 : print_bs s = s := by simp [print_bs, hcol]
  have e2 := print_normal_char_mid s 32 h hb (by omega)
  rw [print_del, e1, print_space, e2]
  simp [print_bs, call, stored, hcol]

end LCDTerm

theorem lor_128 : ∀ a, a < 128 → 128 ||| a = 128 + a := by decide

theorem lor_128_land_127 : ∀ a, a < 128 → (128 ||| a) &&& 127 = a := by decide

/-- The DDRAM addresses of the cells of a panel of at most 4 x 20 cells are
below 0x80 and differ from cell to cell. -/
theorem ddram_address_inj (row col row' col' : Nat) (hr : row < 4) (hc : col < 20)
    (hr' : row' < 4) (hc' : col' < 20) :
    ddram_address row col < 0x80 ∧
    (ddram_address row col = ddram_address row' col' → row = row' ∧ col = col') := by
  interval_cases row <;> interval_cases row' <;>
    simp [ddram_address, row_offsets] <;> omega

namespace LCDTerm

theorem print_normal_char_tab_space (s : LCDTerm) (c : Nat) :
    (print_normal_char s c).tab_space = s.tab_space := by
  simp only [print_normal_char, scroll_up, buff_to_display_eq, call]
  split_ifs <;> rfl

/-- The loop of `print_tab` with `tab_space = 5`: it is left after `n` passes,
`1 <= n <= 5 - current_col mod 5`, on a column that is a multiple of 5, and
not before. -/
theorem print_tab_loop_iterate (fuel : Nat) : ∀ (s : LCDTerm), WF s → InBounds s →
    s.tab_space = 5 → 5 - s.current_col % 5 ≤ fuel →
    ∃ n, 1 ≤ n ∧ n ≤ 5 - s.current_col % 5 ∧
      print_tab_loop fuel s = some (print_space^[n] s) ∧
      (print_space^[n] s).current_col % 5 = 0 ∧
      ∀ j, 0 < j → j < n → (print_space^[j] s).current_col % 5 ≠ 0 := by
  induction fuel with
  | zero =>
    intro s _ _ _ hf
    omega
  | succ fuel ih =>
    intro s h hb ht hf
    have h1 := step_print_normal_char [] s h hb 32
    have ht1 : (print_normal_char s 32).tab_space = 5 := by
      rw [print_normal_char_tab_space, ht]
    by_cases hm : (print_normal_char s 32).current_col
        % (print_normal_char s 32).tab_space ≠ 0
    · have hcol : (print_normal_char s 32).current_col = s.current_col + 1 := by
        rcases print_normal_char_col s h hb 32 with h2 | h2
        · exact h2.1
        · rw [h2] at hm; simp at hm
      have hm5 : (s.current_col + 1) % 5 ≠ 0 := by
        rw [ht1, hcol] at hm; exact hm
      obtain ⟨n, hn1, hn2, hrun, hstop, hnot⟩ := ih _ h1.1 h1.2.1 ht1 (by rw [hcol]; omega)
      refine ⟨n + 1, by omega, by rw [hcol] at hn2; omega, ?_, ?_, ?_⟩
      · rw [print_tab_loop_succ, if_pos hm, Function.iterate_succ_apply]
        exact hrun
      · rw [Function.iterate_succ_apply]
        exact hstop
      · intro j hj hjn
        obtain ⟨i, rfl⟩ : ∃ i, j = i + 1 := ⟨j - 1, by omega⟩
        rw [Function.iterate_succ_apply]
        by_cases hi : i = 0
        · subst hi
          show (print_normal_char s 32).current_col % 5 ≠ 0
          rw [hcol]; exact hm5
        · exact hnot i (by omega) (by omega)
    · have hstop : (print_normal_char s 32).current_col % 5 = 0 := by
        rw [ht1] at hm; omega
      refine ⟨1, le_refl 1, by omega, ?_, hstop, ?_⟩
      · rw [print_tab_loop_succ, if_neg hm]
        rfl
      · intro j hj hj1
        omega

end LCDTerm

/-! ## The claims -/

namespace LCDTerm

/-- C1: a state with the cursor on the screen (`current_row < rows` and
`current_col < cols`, so the display has at least one row and one column) is
taken to a
state with the cursor on the screen, of the same geometry, by every public
operation: `print` of any single byte, `print` of any byte string,
`set_cursor` with any arguments, `home`, `clear` and `scroll_up`; `print`
always returns. -/
theorem C1_cursor_invariant (s : LCDTerm) (h : WF s)
    (hb : s.current_row < s.rows ∧ s.current_col < s.cols) :
    (∀ c, ∃ t, print s c = some t ∧ t.rows = s.rows ∧ t.cols = s.cols ∧
      t.current_row < t.rows ∧ t.current_col < t.cols) ∧
    (∀ mem, ∃ t, print_str s mem = some t ∧ t.rows = s.rows ∧ t.cols = s.cols ∧
      t.current_row < t.rows ∧ t.current_col < t.cols) ∧
    (∀ r c, (set_cursor s r c).rows = s.rows ∧ (set_cursor s r c).cols = s.cols ∧
      (set_cursor s r c).current_row < (set_cursor s r c).rows ∧
      (set_cursor s r c).current_col < (set_cursor s r c).cols) ∧
    ((home s).rows = s.rows ∧ (home s).cols = s.cols ∧
      (home s).current_row < (home s).rows ∧ (home s).current_col < (home s).cols) ∧
    ((clear s).rows = s.rows ∧ (clear s).cols = s.cols ∧
      (clear s).current_row < (clear s).rows ∧ (clear s).current_col < (clear s).cols) ∧
    ((scroll_up s).rows = s.rows ∧ (scroll_up s).cols = s.cols ∧
      (scroll_up s).current_row < (scroll_up s).rows ∧
      (scroll_up s).current_col < (scroll_up s).cols) := by
  have key : ∀ t, Step [] s t →
      t.rows = s.rows ∧ t.cols = s.cols ∧ t.current_row < t.rows ∧ t.current_col < t.cols :=
    fun t ht => ⟨ht.2.2.1, ht.2.2.2.1, ht.2.1.1, ht.2.1.2⟩
  refine ⟨fun c => ?_, fun mem => ?_, fun r c => ?_, ?_, ?_, ?_⟩
  · obtain ⟨t, ht, hst⟩ := step_print [] s h hb c
    exact ⟨t, ht, key t hst⟩
  · obtain ⟨t, ht, hst⟩ := step_print_str [] mem s h hb
    exact ⟨t, ht, key t hst⟩
  · exact key _ (step_set_cursor [] s h hb r c)
  · exact key _ (step_home [] s h hb)
  · exact key _ (step_clear [] s h hb)
  · exact key _ (step_scroll_up [] s h hb)

/-- C1 at the sample terminal: the byte 65, the tab 9, the string `B`, line
feed, and the other operations. -/
theorem C1_cursor_invariant_witness :
    (∃ t, print sample 65 = some t ∧ t.rows = sample.rows ∧ t.cols = sample.cols ∧
      t.current_row < t.rows ∧ t.current_col < t.cols) ∧
    (∃ t, print sample 9 = some t ∧ t.rows = sample.rows ∧ t.cols = sample.cols ∧
      t.current_row < t.rows ∧ t.current_col < t.cols) ∧
    (∃ t, print_str sample [66, 10, 0] = some t ∧ t.rows = sample.rows ∧
      t.cols = sample.cols ∧ t.current_row < t.rows ∧ t.current_col < t.cols) ∧
    (set_cursor sample 7 7).current_row < (set_cursor sample 7 7).rows ∧
    (home sample).current_col < (home sample).cols ∧
    (clear sample).current_row < (clear sample).rows ∧
    (scroll_up sample).current_col < (scroll_up sample).cols :=
  have w := C1_cursor_invariant sample (by decide) (by decide)
  ⟨w.1 65, w.1 9, w.2.1 [66, 10, 0], (w.2.2.1 7 7).2.2.1, w.2.2.2.1.2.2.2,
    w.2.2.2.2.1.2.2.1, w.2.2.2.2.2.2.2.2⟩

/-- C2: start from `init ()` on a panel of `rows` x `cols` cells (at least one
of each, so that there is a cell), whatever the panel showed before.  After
every sequence of `print` (byte or string), `set_cursor`, `home`, `clear` and
`scroll_up` calls, the run returns and every cell `(r, c)` of the panel shows
the buffer byte `curr_buff [r * cols + c]`, 0 as a space. -/
theorem C2_mirror (rows cols flags : Nat) (junk : Nat → Nat) (d0 : List Nat)
    (hr : 1 ≤ rows) (hr2 : rows < 256) (hc : 1 ≤ cols) (hc2 : cols < 256)
    (ops : List Op) :
    ∃ t, run (init junk (ctor rows cols flags)) ops = some t ∧
      t.rows = rows ∧ t.cols = cols ∧
      ∀ r c, r < rows → c < cols →
        (display rows cols d0 t.cm).getD (r * cols + c) 0
          = render (t.curr_buff.getD (r * cols + c) 0) := by
  obtain ⟨hw, hb, e1, e2, hm⟩ := init_good rows cols flags junk d0 hr hr2 hc hc2
  obtain ⟨t, ht, hst⟩ := step_run d0 ops _ hw hb
  have hrows : t.rows = rows := hst.2.2.1.trans e1
  have hcols : t.cols = cols := hst.2.2.2.1.trans e2
  refine ⟨t, ht, hrows, hcols, fun r c hr' hc' => ?_⟩
  have hmt := hst.2.2.2.2 hm
  simp only [Mirror, hrows, hcols] at hmt
  have hlen : r * cols + c < t.curr_buff.length := by
    rw [hst.1.2.2.2.1, hrows, hcols]
    exact index_lt hr' hc'
  rw [hmt, List.getD_eq_getElem?_getD, List.getD_eq_getElem?_getD, List.getElem?_map,
    List.getElem?_eq_getElem hlen]
  rfl

/-- C2 on a 2 x 3 panel: `ABCDEFG` printed (a wrap and a scroll), a line feed,
a cursor move, a tab, a delete and a clear followed by `H`. -/
theorem C2_mirror_witness :
    ∃ t, run (init (fun _ => 170) (ctor 2 3 LCDTERM_LF_IS_CRLF))
        [Op.print_str [65, 66, 67, 68, 69, 70, 71, 0], Op.print 10,
          Op.set_cursor 0 1, Op.print 9, Op.print 127, Op.scroll_up, Op.home,
          Op.clear, Op.print 72] = some t ∧
      t.rows = 2 ∧ t.cols = 3 ∧
      ∀ r c, r < 2 → c < 3 →
        (display 2 3 [1, 2, 3, 4, 5, 6] t.cm).getD (r * 3 + c) 0
          = render (t.curr_buff.getD (r * 3 + c) 0) :=
  C2_mirror 2 3 LCDTERM_LF_IS_CRLF (fun _ => 170) [1, 2, 3, 4, 5, 6]
    (by decide) (by decide) (by decide) (by decide) _

/-- C3: on a display with at least one column, from a state with the cursor
at `(r, 0)` in a row `r` that is not the last (so there are at least two
rows), printing `cols`
printable bytes one after the other leaves the cursor at `(r + 1, 0)`, leaves
row `r` of the buffer holding exactly those bytes in order, and leaves every
other row unchanged. -/
theorem C3_line_wrap (s : LCDTerm) (h : WF s) (hc : 1 ≤ s.cols)
    (hrow : s.current_row + 1 < s.rows) (hcol : s.current_col = 0)
    (bs : List Nat) (hlen : bs.length = s.cols) (hp : ∀ b ∈ bs, b ∉ control_codes) :
    ∃ t, feed s bs = some t ∧ t.rows = s.rows ∧ t.cols = s.cols ∧
      t.current_row = s.current_row + 1 ∧ t.current_col = 0 ∧
      row t s.current_row = bs ∧
      ∀ r', r' < s.rows → r' ≠ s.current_row → row t r' = row s r' := by
  have hb : InBounds s := ⟨by omega, by omega⟩
  obtain ⟨t, ht, hr1, hc1, hbuf, _, heq⟩ :=
    feed_row bs s h hb hrow (by omega) hp
  have hcur := heq (by omega)
  have hfit : s.current_row * s.cols + bs.length ≤ s.curr_buff.length := by
    have := index_lt (k := s.cols) (c := 0) hb.1 (by omega)
    have h2 : (s.current_row + 1) * s.cols ≤ s.rows * s.cols :=
      Nat.mul_le_mul_right _ (by omega)
    rw [Nat.succ_mul] at h2
    rw [h.2.2.2.1, hlen]
    exact h2
  rw [hcol, Nat.add_zero] at hbuf
  refine ⟨t, ht, hr1, hc1, hcur.1, hcur.2, ?_, ?_⟩
  · simp only [row, hbuf, hc1]
    have := overwrite_self _ _ _ hfit
    rw [hlen] at this
    exact this
  · intro r' hr' hne
    simp only [row, hbuf, hc1]
    by_cases hlt : r' < s.current_row
    · have h2 : (r' + 1) * s.cols ≤ s.current_row * s.cols :=
        Nat.mul_le_mul_right _ (by omega)
      rw [Nat.succ_mul] at h2
      exact overwrite_before _ _ _ _ _ h2 hfit
    · have h2 : (s.current_row + 1) * s.cols ≤ r' * s.cols :=
        Nat.mul_le_mul_right _ (by omega)
      rw [Nat.succ_mul] at h2
      rw [overwrite_after _ _ _ _ (by omega) hfit]

/-- C3 at a 2 x 3 terminal: `XYZ` printed from (0, 0) over `ABC / DEF`. -/
theorem C3_line_wrap_witness :
    ∃ t, feed { sample with current_row := 0, current_col := 0 } [88, 89, 90] = some t ∧
      t.rows = 2 ∧ t.cols = 3 ∧
      t.current_row = 0 + 1 ∧ t.current_col = 0 ∧
      row t 0 = [88, 89, 90] ∧
      ∀ r', r' < 2 → r' ≠ 0 → row t r' = row sample r' :=
  C3_line_wrap { sample with current_row := 0, current_col := 0 } (by decide) (by decide)
    (by decide) (by decide) [88, 89, 90] (by decide) (by decide)

/-- C4: on a display with at least one row and one column and the cursor in
the last cell `(rows - 1, cols - 1)`, printing a printable byte `c` stores `c`
in that cell (and nowhere else), then shifts the buffer: every row `i` up to
`rows - 2` holds what row `i + 1` held after the store (so row `rows - 2` ends
with `c`), row `rows - 1` is all 0, and the cursor ends at `(rows - 1, 0)`. -/
theorem C4_scroll_on_wrap (s : LCDTerm) (h : WF s) (hr : 1 ≤ s.rows) (hc : 1 ≤ s.cols)
    (hrow : s.current_row = s.rows - 1) (hcol : s.current_col = s.cols - 1)
    (c : Nat) (hp : c ∉ control_codes) :
    ∃ t, print s c = some t ∧ t.rows = s.rows ∧ t.cols = s.cols ∧
      cell (stored s c) (s.rows - 1) (s.cols - 1) = c ∧
      (∀ r' c', r' < s.rows → c' < s.cols → ¬ (r' = s.rows - 1 ∧ c' = s.cols - 1) →
        cell (stored s c) r' c' = cell s r' c') ∧
      (∀ i, i + 1 < s.rows → row t i = row (stored s c) (i + 1)) ∧
      row t (s.rows - 1) = List.replicate s.cols 0 ∧
      (2 ≤ s.rows → cell t (s.rows - 2) (s.cols - 1) = c) ∧
      t.current_row = s.rows - 1 ∧ t.current_col = 0 := by
  have hb : InBounds s := ⟨by omega, by omega⟩
  have hw := stored_WF s c h
  have hlt : s.current_row * s.cols + s.current_col < s.curr_buff.length := by
    rw [h.2.2.2.1]; exact index_lt hb.1 hb.2
  have hst : cell (stored s c) (s.rows - 1) (s.cols - 1) = c := by
    rw [← hrow, ← hcol]
    simp only [cell, stored, getD_set, hlt, and_self, if_true]
  have hrows : ∀ i, i + 1 < s.rows →
      row (print_normal_char s c) i = row (stored s c) (i + 1) := by
    intro i hi
    rw [print_normal_char_scroll s c h hb (by omega) (by omega)]
    exact scrolled_row (stored s c) hw i hi
  refine ⟨print_normal_char s c, print_printable s c hp, ?_, ?_, hst, ?_, hrows, ?_, ?_, ?_, ?_⟩
  · rw [print_normal_char_scroll s c h hb (by omega) (by omega)]
  · rw [print_normal_char_scroll s c h hb (by omega) (by omega)]
  · intro r' c' _ hc' hne
    simp only [cell, stored, getD_set]
    rw [if_neg]
    rintro ⟨heq, _⟩
    have := index_inj hb.2 hc' heq
    exact hne ⟨by omega, by omega⟩
  · rw [print_normal_char_scroll s c h hb (by omega) (by omega)]
    exact scrolled_last (stored s c) hw hr
  · intro h2
    have e := hrows (s.rows - 2) (by omega)
    have e2 : s.rows - 2 + 1 = s.rows - 1 := by omega
    have hcl : s.cols - 1 < (print_normal_char s c).cols := by
      rw [print_normal_char_scroll s c h hb (by omega) (by omega)]
      show s.cols - 1 < s.cols
      omega
    rw [← row_getD _ _ _ hcl, e, e2, row_getD _ _ _ (by show s.cols - 1 < s.cols; omega), hst]
  · rw [print_normal_char_scroll s c h hb (by omega) (by omega)]
    exact hrow
  · rw [print_normal_char_scroll s c h hb (by omega) (by omega)]

/-- C4 at the sample terminal: printing `Z` in the last cell of `ABC / DEF`
gives `DEZ / 000`. -/
theorem C4_scroll_on_wrap_witness :
    ∃ t, print sample 90 = some t ∧ t.rows = sample.rows ∧ t.cols = sample.cols ∧
      cell (stored sample 90) (sample.rows - 1) (sample.cols - 1) = 90 ∧
      (∀ r' c', r' < sample.rows → c' < sample.cols →
        ¬ (r' = sample.rows - 1 ∧ c' = sample.cols - 1) →
        cell (stored sample 90) r' c' = cell sample r' c') ∧
      (∀ i, i + 1 < sample.rows → row t i = row (stored sample 90) (i + 1)) ∧
      row t (sample.rows - 1) = List.replicate sample.cols 0 ∧
      (2 ≤ sample.rows → cell t (sample.rows - 2) (sample.cols - 1) = 90) ∧
      t.current_row = sample.rows - 1 ∧ t.current_col = 0 :=
  C4_scroll_on_wrap sample (by decide) (by decide) (by decide) (by decide) (by decide)
    90 (by decide)

/-- C5: on a display with at least one row (and any number of columns, so
also with at least one), after `scroll_up`
every buffer row `i` up to `rows - 2` holds what row `i + 1` held, the last row
is all 0, and `current_row` and `current_col` are what they were. -/
theorem C5_scroll_up (s : LCDTerm) (h : WF s) (hr : 1 ≤ s.rows) :
    (∀ i, i + 1 < s.rows → row (scroll_up s) i = row s (i + 1)) ∧
    row (scroll_up s) (s.rows - 1) = List.replicate s.cols 0 ∧
    (scroll_up s).current_row = s.current_row ∧
    (scroll_up s).current_col = s.current_col := by
  rw [scroll_up_eq s h hr]
  refine ⟨fun i hi => ?_, ?_, rfl, rfl⟩
  · exact scrolled_row s h i hi
  · exact scrolled_last s h hr

/-- C5 at the sample terminal: `ABC / DEF` becomes `DEF / 000`. -/
theorem C5_scroll_up_witness :
    (∀ i, i + 1 < sample.rows → row (scroll_up sample) i = row sample (i + 1)) ∧
    row (scroll_up sample) (sample.rows - 1) = List.replicate sample.cols 0 ∧
    (scroll_up sample).current_row = sample.current_row ∧
    (scroll_up sample).current_col = sample.current_col :=
  C5_scroll_up sample (by decide) (by decide)

/-- C6: feeding byte 10 to a state with the cursor on the screen at `(r, c)`
leaves the column at 0 when `lf_is_crlf` is set and at `c` when it is not;
when `r` is not the last row the row becomes `r + 1` and the buffer is
unchanged; when `r` is the last row the row stays `rows - 1` and the buffer is
scrolled up by one row (each row takes the next one, the last is all 0). -/
theorem C6_line_feed (s : LCDTerm) (h : WF s) (hb : InBounds s) :
    ∃ t, print s 10 = some t ∧ t.rows = s.rows ∧ t.cols = s.cols ∧
      t.current_col = (if s.lf_is_crlf then 0 else s.current_col) ∧
      (s.current_row + 1 < s.rows →
        t.current_row = s.current_row + 1 ∧ t.curr_buff = s.curr_buff) ∧
      (s.current_row + 1 = s.rows →
        t.current_row = s.rows - 1 ∧
        (∀ i, i + 1 < s.rows → row t i = row s (i + 1)) ∧
        row t (s.rows - 1) = List.replicate s.cols 0) := by
  refine ⟨print_line_feed s, by simp [print, print_nonescape_char], ?_⟩
  obtain ⟨hr, _⟩ := hb
  by_cases hrow : s.current_row + 1 < s.rows
  · rw [print_line_feed_down s h hrow]
    exact ⟨rfl, rfl, rfl, fun _ => ⟨rfl, rfl⟩, fun h2 => by omega⟩
  · have hrow2 : s.current_row + 1 = s.rows := by omega
    rw [print_line_feed_scroll s h hrow2]
    refine ⟨rfl, rfl, rfl, fun h2 => by omega, fun _ => ⟨?_, ?_, ?_⟩⟩
    · show s.current_row = s.rows - 1
      omega
    · exact fun i hi => scrolled_row s h i hi
    · exact scrolled_last s h (by omega)

/-- C6 at the sample terminal (cursor in the last row, `lf_is_crlf` false). -/
theorem C6_line_feed_witness :
    ∃ t, print sample 10 = some t ∧ t.rows = sample.rows ∧ t.cols = sample.cols ∧
      t.current_col = (if sample.lf_is_crlf then 0 else sample.current_col) ∧
      (sample.current_row + 1 < sample.rows →
        t.current_row = sample.current_row + 1 ∧ t.curr_buff = sample.curr_buff) ∧
      (sample.current_row + 1 = sample.rows →
        t.current_row = sample.rows - 1 ∧
        (∀ i, i + 1 < sample.rows → row t i = row sample (i + 1)) ∧
        row t (sample.rows - 1) = List.replicate sample.cols 0) :=
  C6_line_feed sample (by decide) (by decide)

/-- C7 (the code as written): the constructor tests `flags && CONSTANT`, so the
two members are always equal, and both are set as soon as `flags` is not zero.
With `flags = LCDTERM_LF_IS_CRLF` the member `swap_bs_del` is set, and with
`flags = LCDTERM_SWAP_BS_DEL` the member `lf_is_crlf` is set. -/
theorem C7_flags_not_independent :
    (∀ rows cols flags : Nat,
      (ctor rows cols flags).lf_is_crlf = (ctor rows cols flags).swap_bs_del ∧
      ((ctor rows cols flags).lf_is_crlf = true ↔ flags ≠ 0)) ∧
    (ctor 4 20 LCDTERM_LF_IS_CRLF).swap_bs_del = true ∧
    (ctor 4 20 LCDTERM_SWAP_BS_DEL).lf_is_crlf = true := by
  refine ⟨fun rows cols flags => ?_, by decide, by decide⟩
  by_cases hf : flags = 0
  · subst hf; simp [ctor, logical_and]
  · simp [ctor, logical_and, hf, LCDTERM_LF_IS_CRLF, LCDTERM_SWAP_BS_DEL]

/-- C8 (the code as written): `print (0)` leaves the buffer and the cursor as
they are but issues one capability call, `bell`, because case 0 of the switch
runs into case 7. -/
theorem C8_print_zero_rings_bell (s : LCDTerm) :
    print s 0 = some { s with cm := s.cm ++ [CmCall.bell] } := by
  simp [print, print_nonescape_char, print_bell, call]

/-- C9: with `swap_bs_del` false, feeding byte 8 to any state (so also to one
with the cursor on the screen) leaves the buffer and the row unchanged; when the column is above 0
it goes down by one and exactly one call `set_cursor (row, col - 1)` is
issued; at column 0 the state is unchanged, so no call is issued and the cursor
does not go to the previous row. -/
theorem C9_backspace (s : LCDTerm) (hsw : s.swap_bs_del = false) :
    ∃ t, print s 8 = some t ∧
      t.curr_buff = s.curr_buff ∧ t.current_row = s.current_row ∧
      (0 < s.current_col →
        t.current_col = s.current_col - 1 ∧
        t.cm = s.cm ++ [CmCall.set_cursor s.current_row (s.current_col - 1)]) ∧
      (s.current_col = 0 → t = s) := by
  refine ⟨print_bs s, by simp [print, print_nonescape_char, hsw], ?_⟩
  by_cases hc : 0 < s.current_col
  · simp [print_bs, call, hc]
    omega
  · have : s.current_col = 0 := by omega
    simp [print_bs, this]

/-- C9 at the sample terminal (cursor at column 2). -/
theorem C9_backspace_witness :
    ∃ t, print sample 8 = some t ∧
      t.curr_buff = sample.curr_buff ∧ t.current_row = sample.current_row ∧
      (0 < sample.current_col →
        t.current_col = sample.current_col - 1 ∧
        t.cm = sample.cm ++
          [CmCall.set_cursor sample.current_row (sample.current_col - 1)]) ∧
      (sample.current_col = 0 → t = sample) :=
  C9_backspace sample (by decide)

/-- C10: with `swap_bs_del` false, feeding byte 127 to a state with the cursor
on the screen at a column above 0 leaves the cursor one column to the left in
the same row, leaves the space code 32 in the buffer cell under the new
cursor, and leaves every other buffer cell unchanged. -/
theorem C10_delete (s : LCDTerm) (h : WF s) (hsw : s.swap_bs_del = false)
    (hb : InBounds s) (hc : 0 < s.current_col) :
    ∃ t, print s 127 = some t ∧
      t.rows = s.rows ∧ t.cols = s.cols ∧
      t.current_row = s.current_row ∧ t.current_col = s.current_col - 1 ∧
      cell t s.current_row (s.current_col - 1) = 32 ∧
      ∀ r c, r < s.rows → c < s.cols →
        ¬ (r = s.current_row ∧ c = s.current_col - 1) → cell t r c = cell s r c := by
  refine ⟨print_del s, by simp [print, print_nonescape_char, hsw], ?_⟩
  rw [print_del_eq s h hb hc]
  obtain ⟨hr, hcc⟩ := hb
  obtain ⟨_, _, _, hlen, _⟩ := h
  have hlt : s.current_row * s.cols + (s.current_col - 1) < s.curr_buff.length := by
    rw [hlen]; exact index_lt hr (by omega)
  refine ⟨rfl, rfl, rfl, rfl, ?_, ?_⟩
  · simp only [cell, getD_set, hlt, and_self, if_true]
  · intro r c _ hc2 hne
    simp only [cell, getD_set]
    rw [if_neg]
    rintro ⟨heq, _⟩
    have := index_inj (by omega) hc2 heq
    exact hne ⟨this.1.symm, this.2.symm⟩

/-- C10 at the sample terminal: `F` at (1, 2) stays, `E` at (1, 1) is blanked. -/
theorem C10_delete_witness :
    ∃ t, print sample 127 = some t ∧
      t.rows = sample.rows ∧ t.cols = sample.cols ∧
      t.current_row = sample.current_row ∧
      t.current_col = sample.current_col - 1 ∧
      cell t sample.current_row (sample.current_col - 1) = 32 ∧
      ∀ r c, r < sample.rows → c < sample.cols →
        ¬ (r = sample.current_row ∧ c = sample.current_col - 1) →
        cell t r c = cell sample r c :=
  C10_delete sample (by decide) (by decide) (by decide) (by decide)

/-- C11: for every state, feeding byte 8 with `swap_bs_del` true gives
exactly the buffer, cursor and capability calls that feeding byte 127 with
`swap_bs_del` false gives (both run `print_del`), and feeding byte 127 with
`swap_bs_del` true gives exactly what feeding byte 8 with `swap_bs_del`
false gives (both run `print_bs`). -/
theorem C11_swap_bs_del (s : LCDTerm) :
    (∃ t u, print (with_swap s true) 8 = some t ∧
      print (with_swap s false) 127 = some u ∧
      t.curr_buff = u.curr_buff ∧ t.current_row = u.current_row ∧
      t.current_col = u.current_col ∧ t.cm = u.cm ∧ t = with_swap u true) ∧
    (∃ t u, print (with_swap s true) 127 = some t ∧
      print (with_swap s false) 8 = some u ∧
      t.curr_buff = u.curr_buff ∧ t.current_row = u.current_row ∧
      t.current_col = u.current_col ∧ t.cm = u.cm ∧ t = with_swap u true) := by
  constructor
  · refine ⟨print_del (with_swap s true), print_del (with_swap s false),
      by simp [print, print_nonescape_char, with_swap],
      by simp [print, print_nonescape_char, with_swap], ?_⟩
    rw [print_del_with_swap, print_del_with_swap]
    exact ⟨rfl, rfl, rfl, rfl, rfl⟩
  · refine ⟨print_bs (with_swap s true), print_bs (with_swap s false),
      by simp [print, print_nonescape_char, with_swap],
      by simp [print, print_nonescape_char, with_swap], ?_⟩
    rw [print_bs_with_swap, print_bs_with_swap]
    exact ⟨rfl, rfl, rfl, rfl, rfl⟩

/-- C12: with `tab_space = 5` and the cursor on the screen at `(r, c)`, let
`k = 5 - c mod 5`; when `c + k < cols`, feeding byte 9 issues exactly `k`
writes of a space, to the cells `(r, c) .. (r, c + k - 1)`, leaves 32 in those
buffer cells and every other cell of the screen unchanged, and leaves the
cursor at `(r, c + k)`. -/
theorem C12_tab_without_wrap (s : LCDTerm) (h : WF s) (hb : InBounds s)
    (ht : s.tab_space = 5)
    (hfit : s.current_col + (5 - s.current_col % 5) < s.cols) :
    ∃ t, print s 9 = some t ∧ t.rows = s.rows ∧ t.cols = s.cols ∧
      t.current_row = s.current_row ∧
      t.current_col = s.current_col + (5 - s.current_col % 5) ∧
      t.cm = s.cm ++ (List.range (5 - s.current_col % 5)).map
        (fun j => CmCall.write_char_at s.current_row (s.current_col + j) 32) ∧
      (∀ j, j < 5 - s.current_col % 5 → cell t s.current_row (s.current_col + j) = 32) ∧
      (∀ r c, r < s.rows → c < s.cols →
        ¬ (r = s.current_row ∧ s.current_col ≤ c ∧
          c < s.current_col + (5 - s.current_col % 5)) →
        cell t r c = cell s r c) := by
  obtain ⟨m, hm⟩ : ∃ m, 5 - s.current_col % 5 = m + 1 :=
    ⟨4 - s.current_col % 5, by omega⟩
  rw [hm] at hfit ⊢
  obtain ⟨t, hrun, hr1, hc1, hrow, hcol, hbuf, hcm⟩ :=
    print_tab_loop_spaces m 256 s h hb (by omega) hfit
      (by rw [ht]; omega) (by intro j h1 h2; rw [ht]; omega)
  have hlen : s.current_row * s.cols + s.cols ≤ s.curr_buff.length := by
    have h2 : (s.current_row + 1) * s.cols ≤ s.rows * s.cols :=
      Nat.mul_le_mul_right _ hb.1
    rw [Nat.succ_mul] at h2
    rw [h.2.2.2.1]
    exact h2
  have hcell : ∀ r c, c < s.cols → cell t r c =
      if r = s.current_row ∧ s.current_col ≤ c ∧ c < s.current_col + (m + 1)
      then (List.replicate (m + 1) 32).getD (c - s.current_col) 0 else cell s r c := by
    intro r c hc
    have := overwrite_cell s.curr_buff s.cols s.current_row s.current_col
      (List.replicate (m + 1) 32) (by simp; omega) hlen r c hc
    simp only [List.length_replicate] at this
    simp only [cell, hbuf, hc1, this]
  refine ⟨t, by simpa [print, print_nonescape_char, print_tab] using hrun,
    hr1, hc1, hrow, hcol, hcm, ?_, ?_⟩
  · intro j hj
    rw [hcell _ _ (by omega), if_pos ⟨rfl, by omega, by omega⟩]
    simp [List.getD_eq_getElem?_getD, List.getElem?_replicate, hj]
  · intro r c _ hc hne
    rw [hcell r c hc, if_neg hne]

/-- C12 on a 1 x 12 terminal: from column 3 the tab prints 2 spaces and lands
at column 5, from column 5 it prints 5 spaces and lands at column 10. -/
theorem C12_tab_without_wrap_witness :
    (∃ t, print (sample_line 3) 9 = some t ∧
      t.current_row = 0 ∧ t.current_col = 3 + (5 - 3 % 5) ∧
      t.cm = [CmCall.write_char_at 0 3 32, CmCall.write_char_at 0 4 32]) ∧
    (∃ t, print (sample_line 5) 9 = some t ∧
      t.current_row = 0 ∧ t.current_col = 5 + (5 - 5 % 5) ∧
      t.cm = [CmCall.write_char_at 0 5 32, CmCall.write_char_at 0 6 32,
        CmCall.write_char_at 0 7 32, CmCall.write_char_at 0 8 32,
        CmCall.write_char_at 0 9 32]) :=
  ⟨(C12_tab_without_wrap (sample_line 3) (by decide) (by decide) (by decide)
      (by decide)).imp (fun _ w => ⟨w.1, w.2.2.2.1, w.2.2.2.2.1, w.2.2.2.2.2.1⟩),
    (C12_tab_without_wrap (sample_line 5) (by decide) (by decide) (by decide)
      (by decide)).imp (fun _ w => ⟨w.1, w.2.2.2.1, w.2.2.2.2.1, w.2.2.2.2.2.1⟩)⟩

/-- C13: `set_cursor (row, col)` with both arguments on the screen makes the
cursor `(row, col)`, issues exactly the one capability call
`set_cursor (row, col)` and leaves the buffer unchanged; with an argument off
the screen it leaves the whole state, call log included, unchanged. -/
theorem C13_set_cursor (s : LCDTerm) (row col : Nat) :
    (row < s.rows ∧ col < s.cols →
      (set_cursor s row col).current_row = row ∧
      (set_cursor s row col).current_col = col ∧
      (set_cursor s row col).cm = s.cm ++ [CmCall.set_cursor row col] ∧
      (set_cursor s row col).curr_buff = s.curr_buff) ∧
    (¬ (row < s.rows ∧ col < s.cols) → set_cursor s row col = s) := by
  constructor
  · intro h
    simp [set_cursor, call, h]
  · intro h
    simp [set_cursor, h]

/-- C13 at the sample terminal (2 x 3): `(0, 1)` is on the screen, `(2, 0)`
and `(0, 3)` are not. -/
theorem C13_set_cursor_witness :
    ((set_cursor sample 0 1).current_row = 0 ∧
      (set_cursor sample 0 1).current_col = 1 ∧
      (set_cursor sample 0 1).cm = sample.cm ++ [CmCall.set_cursor 0 1] ∧
      (set_cursor sample 0 1).curr_buff = sample.curr_buff) ∧
    set_cursor sample 2 0 = sample ∧ set_cursor sample 0 3 = sample :=
  ⟨(C13_set_cursor sample 0 1).1 (by decide), (C13_set_cursor sample 2 0).2 (by decide),
    (C13_set_cursor sample 0 3).2 (by decide)⟩

/-- C14: `init ()` on any state, whatever its cursor, its buffer pointer and
the contents of the block that `malloc` returns, and for every geometry (so
also with at least one row and one column): afterwards the cursor is `(0, 0)`,
the buffer is `rows * cols` cells that all hold 0, `col_stride` is `cols`, the
geometry is unchanged, and the calls issued are `init`, `clear` and the
`set_cursor (0, 0)` of `home ()`, in that order.  In particular this holds for
the state the constructor leaves, whose geometry is the one the character
matrix reports. -/
theorem C14_init (s : LCDTerm) (junk : Nat → Nat) (rows cols flags : Nat) :
    ((init junk s).rows = s.rows ∧ (init junk s).cols = s.cols ∧
      (init junk s).current_row = 0 ∧ (init junk s).current_col = 0 ∧
      (init junk s).curr_buff = List.replicate (s.rows * s.cols) 0 ∧
      (init junk s).col_stride = s.cols ∧
      (init junk s).cm = s.cm ++ [CmCall.init, CmCall.clear, CmCall.set_cursor 0 0]) ∧
    ((init junk (ctor rows cols flags)).rows = rows ∧
      (init junk (ctor rows cols flags)).cols = cols ∧
      (init junk (ctor rows cols flags)).current_row = 0 ∧
      (init junk (ctor rows cols flags)).current_col = 0 ∧
      (init junk (ctor rows cols flags)).curr_buff = List.replicate (rows * cols) 0 ∧
      (init junk (ctor rows cols flags)).cm
        = [CmCall.init, CmCall.clear, CmCall.set_cursor 0 0]) := by
  obtain ⟨e1, e2, e3, _⟩ := ctor_fields rows cols flags
  rw [init_eq, init_eq]
  refine ⟨⟨rfl, rfl, rfl, rfl, rfl, rfl, rfl⟩, e1, e2, rfl, rfl, ?_, ?_⟩
  · show List.replicate ((ctor rows cols flags).rows * (ctor rows cols flags).cols) 0 = _
    rw [e1, e2]
  · show (ctor rows cols flags).cm ++ _ = _
    rw [e3]
    rfl

/-- C15: from `init ()` on a panel with at least one row and one column, after
any sequence of `print` (byte or string), `set_cursor`, `home`, `scroll_up` and
`clear` calls, a final `clear ()` leaves the buffer and the cursor of a freshly
initialized terminal of the same geometry: `rows * cols` cells that all hold
0, and the cursor at `(0, 0)`. -/
theorem C15_reset_by_clear (rows cols flags : Nat) (junk : Nat → Nat)
    (hr : 1 ≤ rows) (hr2 : rows < 256) (hc : 1 ≤ cols) (hc2 : cols < 256)
    (ops : List Op) :
    ∃ t, run (init junk (ctor rows cols flags)) ops = some t ∧
      (clear t).rows = rows ∧ (clear t).cols = cols ∧
      (clear t).curr_buff = (init junk (ctor rows cols flags)).curr_buff ∧
      (clear t).current_row = (init junk (ctor rows cols flags)).current_row ∧
      (clear t).current_col = (init junk (ctor rows cols flags)).current_col ∧
      (clear t).curr_buff = List.replicate (rows * cols) 0 ∧
      (clear t).current_row = 0 ∧ (clear t).current_col = 0 := by
  obtain ⟨hw, hb, e1, e2, _⟩ := init_good rows cols flags junk [] hr hr2 hc hc2
  obtain ⟨t, ht, hst⟩ := step_run [] ops _ hw hb
  have hrows : t.rows = rows := hst.2.2.1.trans e1
  have hcols : t.cols = cols := hst.2.2.2.1.trans e2
  obtain ⟨_, _, i3, i4, i5⟩ := init_ctor_fields rows cols flags junk
  refine ⟨t, ht, ?_⟩
  rw [clear_eq t hst.1, i3, i4, i5]
  refine ⟨hrows, hcols, ?_, rfl, rfl, ?_, rfl, rfl⟩
  · show List.replicate (t.rows * t.cols) 0 = _
    rw [hrows, hcols]
  · show List.replicate (t.rows * t.cols) 0 = _
    rw [hrows, hcols]

/-- C15 on a 2 x 3 panel: a string with a wrap and a scroll, a tab, a cursor
move and a scroll, then the final `clear ()`. -/
theorem C15_reset_by_clear_witness :
    ∃ t, run (init (fun _ => 170) (ctor 2 3 0))
        [Op.print_str [65, 66, 67, 68, 69, 70, 71, 0], Op.print 9,
          Op.set_cursor 1 1, Op.scroll_up, Op.clear, Op.home, Op.print 72] = some t ∧
      (clear t).rows = 2 ∧ (clear t).cols = 3 ∧
      (clear t).curr_buff = (init (fun _ => 170) (ctor 2 3 0)).curr_buff ∧
      (clear t).current_row = (init (fun _ => 170) (ctor 2 3 0)).current_row ∧
      (clear t).current_col = (init (fun _ => 170) (ctor 2 3 0)).current_col ∧
      (clear t).curr_buff = List.replicate (2 * 3) 0 ∧
      (clear t).current_row = 0 ∧ (clear t).current_col = 0 :=
  C15_reset_by_clear 2 3 0 (fun _ => 170) (by decide) (by decide) (by decide)
    (by decide) _

/-- C16: for every state, `clear ()` followed by `clear ()` leaves the same
buffer, the same cursor and the same characters on the panel as a single
`clear ()`. -/
theorem C16_clear_idempotent (s : LCDTerm) (d0 : List Nat) :
    (clear (clear s)).curr_buff = (clear s).curr_buff ∧
    (clear (clear s)).current_row = (clear s).current_row ∧
    (clear (clear s)).current_col = (clear s).current_col ∧
    (clear (clear s)).rows = (clear s).rows ∧
    (clear (clear s)).cols = (clear s).cols ∧
    display s.rows s.cols d0 (clear (clear s)).cm
      = display s.rows s.cols d0 (clear s).cm := by
  refine ⟨clear_buff_again s, rfl, rfl, rfl, rfl, ?_⟩
  have e1 : (clear s).cm = s.cm ++ [CmCall.clear, CmCall.set_cursor 0 0] := by
    simp [clear, clear_buff, home, call]
  have e2 : (clear (clear s)).cm
      = (clear s).cm ++ [CmCall.clear, CmCall.set_cursor 0 0] := by
    simp [clear, clear_buff, home, call]
  rw [e2, display_append, e1, display_append]
  rfl

/-- C17 (as the code is): the claim fails on the call sequence.  At the sample
terminal byte 12 issues the one call `clear`, while `clear ()` issues `clear`
and then `set_cursor (0, 0)`. -/
theorem C17_form_feed_counterexample :
    ∃ t, print sample 12 = some t ∧ t.cm = [CmCall.clear] ∧
      (clear sample).cm = [CmCall.clear, CmCall.set_cursor 0 0] ∧
      t.cm ≠ (clear sample).cm :=
  ⟨print_form_feed sample, by decide, by decide, by decide, by decide⟩

/-- C17 (amended): feeding byte 12 to a well-formed state leaves the same
buffer (all 0) and the same cursor `(0, 0)` as `clear ()`; it issues the one
capability call `clear`, where `clear ()` issues `clear` and then the
`set_cursor (0, 0)` of `home ()`. -/
theorem C17_form_feed (s : LCDTerm) (h : WF s) :
    ∃ t, print s 12 = some t ∧
      t.curr_buff = (clear s).curr_buff ∧
      t.curr_buff = List.replicate (s.rows * s.cols) 0 ∧
      t.current_row = (clear s).current_row ∧ t.current_col = (clear s).current_col ∧
      t.current_row = 0 ∧ t.current_col = 0 ∧
      t.cm = s.cm ++ [CmCall.clear] ∧
      (clear s).cm = s.cm ++ [CmCall.clear, CmCall.set_cursor 0 0] := by
  refine ⟨print_form_feed s, by simp [print, print_nonescape_char], ?_⟩
  rw [print_form_feed_eq s h, clear_eq s h]
  exact ⟨rfl, rfl, rfl, rfl, rfl, rfl, rfl, rfl⟩

/-- C17 (amended) at the sample terminal. -/
theorem C17_form_feed_witness :
    ∃ t, print sample 12 = some t ∧
      t.curr_buff = (clear sample).curr_buff ∧
      t.curr_buff = List.replicate (sample.rows * sample.cols) 0 ∧
      t.current_row = (clear sample).current_row ∧
      t.current_col = (clear sample).current_col ∧
      t.current_row = 0 ∧ t.current_col = 0 ∧
      t.cm = sample.cm ++ [CmCall.clear] ∧
      (clear sample).cm = sample.cm ++ [CmCall.clear, CmCall.set_cursor 0 0] :=
  C17_form_feed sample (by decide)

/-- C18: `print (s)` on a byte sequence followed by a terminating zero has
exactly the effect (the whole state: buffer, cursor and the ordered call log)
of feeding the bytes before the first zero byte one at a time, in order,
through `print (byte)`; the zero byte and what follows it are not fed. -/
theorem C18_print_string (s : LCDTerm) (mem : List Nat) :
    print_str s (mem ++ [0]) = feed s (mem.takeWhile (fun b => b != 0)) :=
  print_str_eq_feed mem s

/-- C19: a byte `b` without an arm of its own in the switch (11, 27 and every
byte from 128 among them), fed to a state with the cursor on the screen, has
exactly the effect of `print_normal_char (b)`: `b` is stored in the buffer
cell under the cursor, `write_char_at (row, col, b)` is the first call issued,
and the cursor goes one column to the right, or to column 0 of the next row at
the end of a row, or to column 0 of the same row with the buffer scrolled at
the end of the last row. -/
theorem C19_unassigned_bytes (s : LCDTerm) (h : WF s) (hb : InBounds s) (b : Nat)
    (hp : b ∉ control_codes) :
    ∃ t, print s b = some t ∧ t = print_normal_char s b ∧
      cell (stored s b) s.current_row s.current_col = b ∧
      (∃ rest, t.cm = s.cm ++ CmCall.write_char_at s.current_row s.current_col b :: rest) ∧
      (s.current_col + 1 < s.cols →
        t.curr_buff = (stored s b).curr_buff ∧
        t.current_row = s.current_row ∧ t.current_col = s.current_col + 1) ∧
      (s.current_col + 1 = s.cols → s.current_row + 1 < s.rows →
        t.curr_buff = (stored s b).curr_buff ∧
        t.current_row = s.current_row + 1 ∧ t.current_col = 0) ∧
      (s.current_col + 1 = s.cols → s.current_row + 1 = s.rows →
        t.curr_buff = scrolled (stored s b) ∧
        t.current_row = s.current_row ∧ t.current_col = 0) := by
  have hlt : s.current_row * s.cols + s.current_col < s.curr_buff.length := by
    rw [h.2.2.2.1]; exact index_lt hb.1 hb.2
  have hst : cell (stored s b) s.current_row s.current_col = b := by
    simp only [cell, stored, getD_set, hlt, and_self, if_true]
  refine ⟨print_normal_char s b, print_printable s b hp, rfl, hst, ?_, ?_, ?_, ?_⟩
  · by_cases hcol : s.current_col + 1 < s.cols
    · rw [print_normal_char_mid s b h hb hcol]
      exact ⟨[], rfl⟩
    · have hcol2 : s.current_col + 1 = s.cols := by have := hb.2; omega
      by_cases hrow : s.current_row + 1 < s.rows
      · rw [print_normal_char_wrap s b h hb hcol2 hrow]
        exact ⟨[CmCall.set_cursor (s.current_row + 1) 0], rfl⟩
      · have hrow2 : s.current_row + 1 = s.rows := by have := hb.1; omega
        rw [print_normal_char_scroll s b h hb hcol2 hrow2]
        exact ⟨CmCall.clear :: (repaint_calls { s with curr_buff := scrolled (stored s b) }
          ++ [CmCall.set_cursor s.current_row s.cols, CmCall.set_cursor s.current_row 0]),
          by simp⟩
  · intro hcol
    rw [print_normal_char_mid s b h hb hcol]
    exact ⟨rfl, rfl, rfl⟩
  · intro hcol hrow
    rw [print_normal_char_wrap s b h hb hcol hrow]
    exact ⟨rfl, rfl, rfl⟩
  · intro hcol hrow
    rw [print_normal_char_scroll s b h hb hcol hrow]
    exact ⟨rfl, rfl, rfl⟩

/-- C19 at the sample terminal, with the escape byte 27 and with byte 200. -/
theorem C19_unassigned_bytes_witness :
    (∃ t, print sample 27 = some t ∧ t = print_normal_char sample 27 ∧
      cell (stored sample 27) 1 2 = 27 ∧
      (∃ rest, t.cm = sample.cm ++ CmCall.write_char_at 1 2 27 :: rest) ∧
      t.curr_buff = scrolled (stored sample 27) ∧
      t.current_row = 1 ∧ t.current_col = 0) ∧
    (∃ t, print { sample with current_col := 0 } 200 = some t ∧
      t.curr_buff = (stored { sample with current_col := 0 } 200).curr_buff ∧
      t.current_row = 1 ∧ t.current_col = 0 + 1) :=
  ⟨(C19_unassigned_bytes sample (by decide) (by decide) 27 (by decide)).imp
      (fun _ w => ⟨w.1, w.2.1, w.2.2.1, w.2.2.2.1,
        w.2.2.2.2.2.2 (by decide) (by decide)⟩),
    (C19_unassigned_bytes { sample with current_col := 0 } (by decide) (by decide) 200
      (by decide)).imp (fun _ w => ⟨w.1, w.2.2.2.2.1 (by decide)⟩)⟩

/-- C21: with `tab_space = 5`, in a state with the cursor on the screen (so
with at least one row and one column, and whether or not `cols` is a multiple
of 5), `print_tab` returns after `n` calls of `print (' ')` with
`1 <= n <= 5`; afterwards `current_col` is a multiple of 5 (it is 0 when the
tab ran off the right edge), and it was not a multiple of 5 after any smaller
number of spaces. -/
theorem C21_tab_aligned (s : LCDTerm) (h : WF s) (hb : InBounds s)
    (ht : s.tab_space = 5) :
    ∃ n, 1 ≤ n ∧ n ≤ 5 ∧
      print_tab s = some (print_space^[n] s) ∧
      print s 9 = some (print_space^[n] s) ∧
      (print_space^[n] s).current_col % 5 = 0 ∧
      (print_space^[n] s).current_col < (print_space^[n] s).cols ∧
      ∀ j, 0 < j → j < n → (print_space^[j] s).current_col % 5 ≠ 0 := by
  obtain ⟨n, hn1, hn2, hrun, hstop, hnot⟩ :=
    print_tab_loop_iterate 256 s h hb ht (by omega)
  obtain ⟨t, ht2, hst⟩ := step_print_tab_loop [] 256 s h hb (by have := h.2.1; omega)
  have e : t = print_space^[n] s := by
    rw [hrun] at ht2
    exact (Option.some.inj ht2).symm
  refine ⟨n, hn1, by omega, hrun, ?_, hstop, ?_, hnot⟩
  · simpa [print, print_nonescape_char, print_tab] using hrun
  · rw [← e]
    exact hst.2.1.2

/-- C21 on the 2 x 3 sample terminal (3 is not a multiple of 5), from the last
cell. -/
theorem C21_tab_aligned_witness :
    ∃ n, 1 ≤ n ∧ n ≤ 5 ∧
      print_tab sample = some (print_space^[n] sample) ∧
      print sample 9 = some (print_space^[n] sample) ∧
      (print_space^[n] sample).current_col % 5 = 0 ∧
      (print_space^[n] sample).current_col < (print_space^[n] sample).cols ∧
      ∀ j, 0 < j → j < n → (print_space^[j] sample).current_col % 5 ≠ 0 :=
  C21_tab_aligned sample (by decide) (by decide) (by decide)

/-- C22 (the code as written): a character printed in the last cell of the
screen makes `scroll_up` issue `set_cursor (rows - 1, cols)`, a column off the
screen, before `print_normal_char` sets the column to 0.  On the 2 x 3 sample
terminal printing `Z` at (1, 2) issues `set_cursor (1, 3)`; on the 1 x 12
terminal printing `A` at (0, 11) issues `set_cursor (0, 12)`. -/
theorem C22_cursor_set_off_screen :
    (∃ t, print sample 90 = some t ∧ sample.cm = [] ∧
      CmCall.set_cursor 1 3 ∈ t.cm ∧ ¬ (3 < sample.cols)) ∧
    (∃ t, print (sample_line 11) 65 = some t ∧ (sample_line 11).cm = [] ∧
      CmCall.set_cursor 0 12 ∈ t.cm ∧ ¬ (12 < (sample_line 11).cols)) :=
  ⟨⟨print_normal_char sample 90, by decide, by decide, by decide, by decide⟩,
    ⟨print_normal_char (sample_line 11) 65, by decide, by decide, by decide, by decide⟩⟩

/-- C23: on a display with at least two columns, `print_del` in a state with
the cursor on the screen at `(r, 0)` leaves the cursor at `(r, 0)`, puts the
space code 32 in buffer cell `(r, 0)`, leaves every other buffer cell of the
screen unchanged, and does not scroll: the only calls it issues are the write
of the space and one `set_cursor (r, 0)`. -/
theorem C23_delete_at_margin (s : LCDTerm) (h : WF s) (hb : InBounds s)
    (hc : 2 ≤ s.cols) (hcol : s.current_col = 0) :
    (print_del s).rows = s.rows ∧ (print_del s).cols = s.cols ∧
    (print_del s).current_row = s.current_row ∧ (print_del s).current_col = 0 ∧
    cell (print_del s) s.current_row 0 = 32 ∧
    (∀ r c, r < s.rows → c < s.cols → ¬ (r = s.current_row ∧ c = 0) →
      cell (print_del s) r c = cell s r c) ∧
    (print_del s).cm = s.cm ++ [CmCall.write_char_at s.current_row 0 32,
      CmCall.set_cursor s.current_row 0] := by
  rw [print_del_margin s h hb hc hcol]
  have hlt : s.current_row * s.cols + 0 < s.curr_buff.length := by
    rw [h.2.2.2.1]; exact index_lt hb.1 (by omega)
  refine ⟨rfl, rfl, rfl, rfl, ?_, ?_, rfl⟩
  · simp only [cell, getD_set, hlt, and_self, if_true]
  · intro r c _ hc2 hne
    simp only [cell, getD_set]
    rw [if_neg]
    rintro ⟨heq, _⟩
    have := index_inj (by omega) hc2 heq
    exact hne ⟨this.1.symm, this.2.symm⟩

/-- C23 at the sample terminal with the cursor at (1, 0): `D` is blanked. -/
theorem C23_delete_at_margin_witness :
    (print_del (set_cursor sample 1 0)).current_row = 1 ∧
    (print_del (set_cursor sample 1 0)).current_col = 0 ∧
    cell (print_del (set_cursor sample 1 0)) 1 0 = 32 ∧
    (print_del (set_cursor sample 1 0)).cm = (set_cursor sample 1 0).cm ++
      [CmCall.write_char_at 1 0 32, CmCall.set_cursor 1 0] :=
  have w := C23_delete_at_margin (set_cursor sample 1 0) (by decide) (by decide)
    (by decide) (by decide)
  ⟨w.2.2.1, w.2.2.2.1, w.2.2.2.2.1, w.2.2.2.2.2.2⟩

end LCDTerm

/-! ## The driver claims -/

namespace LCD8574Arduino

/-- C20: for a cell on the panel, `write_char_at (row, col, 0)` sends exactly
the I2C bytes that `write_char_at (row, col, 32)` sends (the driver ends in
the same state, log of sent bytes included, and the log has grown by the 12
bytes of one command and one data byte); for a cell off the panel
`write_char_at` sends nothing and changes nothing. -/
theorem C20_blank_renders_as_space (d : LCD8574Arduino) (row col : Nat) :
    (row < d.rows ∧ col < d.cols →
      write_char_at d row col 0 = write_char_at d row col 32 ∧
      (write_char_at d row col 0).wire.length = d.wire.length + 12) ∧
    (¬ (row < d.rows ∧ col < d.cols) → ∀ c, write_char_at d row col c = d) := by
  constructor
  · intro h
    refine ⟨by simp [write_char_at], ?_⟩
    simp only [write_char_at, h, and_self, if_true, set_cursor, h.1, command, send_byte_wire]
  · intro h c
    simp [write_char_at, h]

/-- C20 at the 4 x 20 panel: cell (1, 2) is on the panel, cells (4, 0) and
(0, 20) are not. -/
theorem C20_blank_renders_as_space_witness :
    (write_char_at sample_lcd 1 2 0 = write_char_at sample_lcd 1 2 32 ∧
      (write_char_at sample_lcd 1 2 0).wire.length = sample_lcd.wire.length + 12) ∧
    write_char_at sample_lcd 4 0 65 = sample_lcd ∧
    write_char_at sample_lcd 0 20 0 = sample_lcd :=
  ⟨(C20_blank_renders_as_space sample_lcd 1 2).1 (by decide),
    (C20_blank_renders_as_space sample_lcd 4 0).2 (by decide) 65,
    (C20_blank_renders_as_space sample_lcd 0 20).2 (by decide) 0⟩

/-- C24: on a panel with `rows <= 4` and `cols <= 20`, for a cell with
`row < rows` and `col < cols`, `set_cursor` sends the command byte
`0x80 | (col + row_offsets [row])`; the row index is inside the table of 4
offsets, the address is below 0x80, so the command byte is `0x80 + address`
and its low seven bits give the address back, and a cell of the panel with the
same address is the same cell. -/
theorem C24_cell_addressing (d : LCD8574Arduino) (hr : d.rows ≤ 4) (hc : d.cols ≤ 20)
    (row col : Nat) (hrow : row < d.rows) (hcol : col < d.cols) :
    row < row_offsets.length ∧
    set_cursor d row col = command d (LCD_SETDDRAMADDR ||| ddram_address row col) ∧
    ddram_address row col < 0x80 ∧
    LCD_SETDDRAMADDR ||| ddram_address row col = 0x80 + ddram_address row col ∧
    (LCD_SETDDRAMADDR ||| ddram_address row col) &&& 0x7F = ddram_address row col ∧
    ∀ row' col', row' < d.rows → col' < d.cols →
      ddram_address row col = ddram_address row' col' → row = row' ∧ col = col' := by
  have h4 : row < 4 := by omega
  have h20 : col < 20 := by omega
  have ha := (ddram_address_inj row col row col h4 h20 h4 h20).1
  have e1 := lor_128 _ ha
  have e2 := lor_128_land_127 _ ha
  refine ⟨h4, ?_, ha, e1, e2, ?_⟩
  · have e3 : (128 ||| ddram_address row col) % 256 = 128 ||| ddram_address row col := by
      rw [e1]; exact Nat.mod_eq_of_lt (by omega)
    simp only [set_cursor, hrow, if_true, LCD_SETDDRAMADDR]
    show command d ((128 ||| ddram_address row col) % 256) = _
    rw [e3]
  · intro row' col' hrow' hcol'
    exact (ddram_address_inj row col row' col' h4 h20 (by omega) (by omega)).2

/-- C24 at the 4 x 20 panel, cell (3, 19): the largest address, 0x67. -/
theorem C24_cell_addressing_witness :
    3 < row_offsets.length ∧
    set_cursor sample_lcd 3 19 = command sample_lcd (LCD_SETDDRAMADDR ||| ddram_address 3 19) ∧
    ddram_address 3 19 < 0x80 ∧
    LCD_SETDDRAMADDR ||| ddram_address 3 19 = 0x80 + ddram_address 3 19 ∧
    (LCD_SETDDRAMADDR ||| ddram_address 3 19) &&& 0x7F = ddram_address 3 19 ∧
    ∀ row' col', row' < sample_lcd.rows → col' < sample_lcd.cols →
      ddram_address 3 19 = ddram_address row' col' → 3 = row' ∧ 19 = col' :=
  C24_cell_addressing sample_lcd (by decide) (by decide) 3 19 (by decide) (by decide)

/-- C25 (the code as written): the constructor leaves the member `charsize`
as the storage held it, whatever the argument is.  For an object with static
storage constructed as a one-row panel with `LCD_5x10DOTS`, the member is 0,
`init ()` leaves `hardware_mode` at 0 (bit `LCD_5x10DOTS` not set) and the
function-set command it sends is `0x20`, not `0x24` (nibbles 2 and 0 under the
backlight bit, each sent and clocked); with the member set to the argument,
`init ()` would set the bit. -/
theorem C25_charsize_not_recorded :
    (∀ (mem : LCD8574Arduino) (addr cols rows charsize : Nat),
      (ctor mem addr cols rows charsize).charsize = mem.charsize) ∧
    (ctor static_storage 0x27 16 1 LCD_5x10DOTS).charsize = 0 ∧
    (init (ctor static_storage 0x27 16 1 LCD_5x10DOTS)).hardware_mode = 0 ∧
    (init (ctor static_storage 0x27 16 1 LCD_5x10DOTS)).hardware_mode
      &&& LCD_5x10DOTS = 0 ∧
    (((init (ctor static_storage 0x27 16 1 LCD_5x10DOTS)).wire.drop 13).take 6).map
      Prod.snd = [0x28, 0x2C, 0x28, 0x08, 0x0C, 0x08] ∧
    (init { ctor static_storage 0x27 16 1 LCD_5x10DOTS with charsize := LCD_5x10DOTS
      }).hardware_mode &&& LCD_5x10DOTS = LCD_5x10DOTS :=
  ⟨fun _ _ _ _ _ => rfl, by decide, by decide, by decide, by decide, by decide⟩

end LCD8574Arduino
